import Mathlib

/-!
# acme-reverse-proxy: the certificate renewal agent (`acme.go`)

A shallow embedding of `acme.go` and a verification of its specification.

* Go `string` and `[]byte` values are byte sequences; both are `String` here, so the
  conversion `[]byte(keyAuth)` is the identity.
* Go `int`, `int64` and `time.Duration` values are integers (`ℤ`); `time.Duration` is
  a count of nanoseconds that `Time.Sub` saturates to the `int64` range.
* A `float64` value is the rational number it denotes; every float operation is the
  exact operation followed by `roundFloat64` (round to nearest, ties to even, 53 bits).
  All values that `Duration.Hours` and the division by 24 can produce are zero or lie
  between `2^-50` and `2^22` in magnitude, far inside the normal range of `float64`,
  so neither overflow nor gradual underflow is modelled.
* The filesystem is explicit state: a finite table from resolved paths to files and
  directories. Permissions, links and device errors are not modelled; the permission
  arguments of the `os` calls are therefore dropped.
* The libraries that `acme.go` only calls (PEM and X.509 parsing, the clock, the ACME
  client, the `nginx` process) are the fields of `Collaborators`.
-/

set_option linter.unusedVariables false

namespace Acme

/-! ## Errors -/

/-- The `syscall.Errno` values the filesystem model can produce. -/
inductive Errno
  | ENOENT
  | ENOTDIR
  | EISDIR
  | EEXIST
  | ENOTEMPTY
  | EBUSY
  deriving DecidableEq

/-- Go `error` values: `*fs.PathError`, `fmt.Errorf` without and with `%w`, and errors
coming out of a library collaborator. -/
inductive GoError
  | pathError (op : String) (path : String) (errno : Errno)
  | errorf (msg : String)
  | wrap (context : String) (inner : GoError)
  | collaborator (msg : String)
  deriving DecidableEq

def Errno.Error : Errno → String
  | .ENOENT => "no such file or directory"
  | .ENOTDIR => "not a directory"
  | .EISDIR => "is a directory"
  | .EEXIST => "file exists"
  | .ENOTEMPTY => "directory not empty"
  | .EBUSY => "device or resource busy"

def GoError.Error : GoError → String
  | .pathError op path errno => op ++ " " ++ path ++ ": " ++ errno.Error
  | .errorf msg => msg
  | .wrap context inner => context ++ ": " ++ inner.Error
  | .collaborator msg => msg

/-- The function `os.IsNotExist`: true exactly for a path error carrying `ENOENT`; it does
not look through `fmt.Errorf` wrappers. -/
def os.IsNotExist : GoError → Bool
  | .pathError _ _ .ENOENT => true
  | _ => false

/-! ## Filesystem state and path resolution -/

/-- A resolved path: the names leading from the root directory to an entry. -/
abbrev Path := List String

inductive Node
  | file (data : String)
  | dir
  deriving DecidableEq

/-- The filesystem: a table of entries (the first entry for a path is the live one; the
root directory always exists) and the working directory of the process. -/
structure FS where
  entries : List (Path × Node)
  cwd : Path
  deriving DecidableEq

def FS.lookup (fs : FS) (p : Path) : Option Node :=
  if p = [] then some Node.dir else fs.entries.lookup p

def FS.set (fs : FS) (p : Path) (n : Node) : FS :=
  { fs with entries := (p, n) :: fs.entries }

def FS.erase (fs : FS) (p : Path) : FS :=
  { fs with entries := fs.entries.filter (fun e => !(e.1 == p)) }

def FS.hasChildren (fs : FS) (p : Path) : Bool :=
  fs.entries.any (fun e => e.1 != [] && e.1.dropLast == p)

/-- Splits a path at every slash; empty pieces are kept. -/
def splitOnSlash : List Char → List (List Char)
  | [] => [[]]
  | c :: cs =>
    if c = '/' then [] :: splitOnSlash cs
    else
      match splitOnSlash cs with
      | [] => [[c]]
      | w :: ws => (c :: w) :: ws

def pathComponents (name : String) : List String :=
  (splitOnSlash name.data).map String.mk

def joinComponents (rooted : Bool) (comps : List String) : String :=
  (if rooted then "/" else "") ++ "/".intercalate comps

/-- The function `filepath.IsAbs` on Unix: the path starts with a slash. -/
def filepath.IsAbs (name : String) : Bool :=
  name.data.head? == some '/'

/-- Path resolution as the kernel does it: every component is looked up in the current
directory, which must exist and be a directory; an empty component or `.` stays, `..`
goes to the parent. The entry named by the last component need not exist. -/
def FS.walk (fs : FS) (cur : Path) : List String → Except Errno Path
  | [] => .ok cur
  | c :: rest =>
    match fs.lookup cur with
    | none => .error .ENOENT
    | some (.file _) => .error .ENOTDIR
    | some .dir =>
      if c = "" ∨ c = "." then fs.walk cur rest
      else if c = ".." then fs.walk cur.dropLast rest
      else fs.walk (cur ++ [c]) rest

def FS.resolve (fs : FS) (name : String) : Except Errno Path :=
  if name = "" then .error .ENOENT
  else fs.walk (if filepath.IsAbs name then [] else fs.cwd) (pathComponents name)

/-- The function `os.Stat`, reduced to the kind and content of the entry. -/
def os.Stat (fs : FS) (name : String) : Except Errno Node :=
  match fs.resolve name with
  | .error e => .error e
  | .ok p =>
    match fs.lookup p with
    | none => .error .ENOENT
    | some n => .ok n

/-- The function `os.ReadFile`: opening a directory succeeds, reading it fails with
`EISDIR`. -/
def os.ReadFile (fs : FS) (name : String) : Except GoError String :=
  match fs.resolve name with
  | .error e => .error (.pathError "open" name e)
  | .ok p =>
    match fs.lookup p with
    | none => .error (.pathError "open" name .ENOENT)
    | some .dir => .error (.pathError "read" name .EISDIR)
    | some (.file data) => .ok data

/-- The function `os.WriteFile`: open with `O_WRONLY|O_CREATE|O_TRUNC`, write all of
`data`, close. -/
def os.WriteFile (fs : FS) (name : String) (data : String) : FS × Option GoError :=
  match fs.resolve name with
  | .error e => (fs, some (.pathError "open" name e))
  | .ok p =>
    match fs.lookup p with
    | some .dir => (fs, some (.pathError "open" name .EISDIR))
    | _ => (fs.set p (.file data), none)

def os.Mkdir (fs : FS) (name : String) : FS × Option GoError :=
  match fs.resolve name with
  | .error e => (fs, some (.pathError "mkdir" name e))
  | .ok p =>
    match fs.lookup p with
    | some _ => (fs, some (.pathError "mkdir" name .EEXIST))
    | none => (fs.set p .dir, none)

/-- The recursion of `os.MkdirAll` on the parent path; the components are given last
name first. An existing directory ends it at once, an existing file is `ENOTDIR`;
otherwise the parent is made first and then the directory itself. -/
def mkdirAllRev (fs : FS) (rooted : Bool) : List String → FS × Option GoError
  | [] => (fs, none)
  | c :: parentRev =>
    match os.Stat fs (joinComponents rooted (c :: parentRev).reverse) with
    | .ok .dir => (fs, none)
    | .ok (.file _) =>
      (fs, some (.pathError "mkdir" (joinComponents rooted (c :: parentRev).reverse) .ENOTDIR))
    | .error _ =>
      match mkdirAllRev fs rooted parentRev with
      | (fs1, some err) => (fs1, some err)
      | (fs1, none) =>
        match os.Mkdir fs1 (joinComponents rooted (c :: parentRev).reverse) with
        | (fs2, none) => (fs2, none)
        | (fs2, some err) =>
          match os.Stat fs2 (joinComponents rooted (c :: parentRev).reverse) with
          | .ok .dir => (fs2, none)
          | _ => (fs2, some err)

def os.MkdirAll (fs : FS) (name : String) : FS × Option GoError :=
  if name = "" then (fs, some (.pathError "mkdir" name .ENOENT))
  else mkdirAllRev fs (filepath.IsAbs name) ((pathComponents name).filter (· ≠ "")).reverse

def unlink (fs : FS) (name : String) : FS × Option Errno :=
  match fs.resolve name with
  | .error e => (fs, some e)
  | .ok p =>
    match fs.lookup p with
    | none => (fs, some .ENOENT)
    | some .dir => (fs, some .EISDIR)
    | some (.file _) => (fs.erase p, none)

def rmdir (fs : FS) (name : String) : FS × Option Errno :=
  match fs.resolve name with
  | .error e => (fs, some e)
  | .ok p =>
    match fs.lookup p with
    | none => (fs, some .ENOENT)
    | some (.file _) => (fs, some .ENOTDIR)
    | some .dir =>
      if p = [] then (fs, some .EBUSY)
      else if fs.hasChildren p then (fs, some .ENOTEMPTY)
      else (fs.erase p, none)

/-- The function `os.Remove`: `unlink`, then `rmdir`; when both fail the error of `rmdir`
is reported unless it is `ENOTDIR`. -/
def os.Remove (fs : FS) (name : String) : FS × Option GoError :=
  match unlink fs name with
  | (fs1, none) => (fs1, none)
  | (_, some e) =>
    match rmdir fs name with
    | (fs1, none) => (fs1, none)
    | (_, some e1) => (fs, some (.pathError "remove" name (if e1 ≠ .ENOTDIR then e1 else e)))

/-! ## `filepath.Clean` and `filepath.Join` -/

/-- One step of `filepath.Clean`; `out` holds the components kept so far, last first. -/
def cleanStep (rooted : Bool) (out : List String) (c : String) : List String :=
  if c = "" ∨ c = "." then out
  else if c = ".." then
    match out with
    | top :: below => if top = ".." then c :: out else below
    | [] => if rooted then [] else [c]
  else c :: out

def filepath.Clean (path : String) : String :=
  if path = "" then "."
  else if filepath.IsAbs path then
    joinComponents true ((pathComponents path).foldl (cleanStep true) []).reverse
  else if (pathComponents path).foldl (cleanStep false) [] = [] then "."
  else joinComponents false ((pathComponents path).foldl (cleanStep false) []).reverse

/-- The function `filepath.Join`: empty elements are ignored, the rest is joined with
slashes and cleaned; the result is empty when every element is. -/
def filepath.Join (elem : List String) : String :=
  if elem.filter (· ≠ "") = [] then ""
  else filepath.Clean ("/".intercalate (elem.filter (· ≠ "")))

/-! ## Constants, configuration and the HTTP-01 provider -/

def challengeBasePath : String := "/usr/share/nginx/challenge/.well-known/acme-challenge"
def defaultCADirURL : String := "https://acme-staging-v02.api.letsencrypt.org/directory"
def defaultEmail : String := "notmy@mail.com"
def defaultCertPath : String := "/etc/ssl/private/fullchain.pem"
def defaultKeyPath : String := "/etc/ssl/private/key.pem"
def defaultExpiryDaysThreshold : ℤ := 30
def defaultSAN : String := ""

structure Config where
  Email : String
  Domain : String
  SAN : List String
  CertPath : String
  KeyPath : String
  CADirURL : String
  ExpiryDaysThreshold : ℤ
  deriving DecidableEq

def customHTTP01Provider.Present (fs : FS) (domain token keyAuth : String) :
    FS × Option GoError :=
  match os.MkdirAll fs challengeBasePath with
  | (fs1, some err) => (fs1, some err)
  | (fs1, none) => os.WriteFile fs1 (filepath.Join [challengeBasePath, token]) keyAuth

def customHTTP01Provider.CleanUp (fs : FS) (domain token keyAuth : String) :
    FS × Option GoError :=
  os.Remove fs (filepath.Join [challengeBasePath, token])

def getDomains (cfg : Config) : List String :=
  [cfg.Domain] ++ cfg.SAN

/-! ## `float64` arithmetic and `time` -/

/-- Rounding to the nearest integer, a tie going to the even one. -/
def roundHalfEven (x : ℚ) : ℤ :=
  if x - ⌊x⌋ < 1 / 2 then ⌊x⌋
  else if 1 / 2 < x - ⌊x⌋ then ⌊x⌋ + 1
  else if ⌊x⌋ % 2 = 0 then ⌊x⌋ else ⌊x⌋ + 1

/-- The unit in the last place of a 53-bit significand for the binade of `a`. -/
def ulp (a : ℚ) : ℚ := (2 : ℚ) ^ (Int.log 2 a - 52)

def roundMag (a : ℚ) : ℚ :=
  if a = 0 then 0 else roundHalfEven (a / ulp a) * ulp a

/-- The `float64` nearest to `q` (ties to even), sign and magnitude handled apart. -/
def roundFloat64 (q : ℚ) : ℚ :=
  if q < 0 then -roundMag (-q) else roundMag q

/-- The rationals a `float64` can hold: a significand below `2^53` times a power of 2. -/
def IsFloat64 (q : ℚ) : Prop := ∃ m e : ℤ, |m| < 2 ^ 53 ∧ q = m * (2 : ℚ) ^ e

/-- The conversion `float64(i)` of an integer. -/
def float64OfInt (i : ℤ) : ℚ := roundFloat64 (i : ℚ)

/-- The conversion `int(x)` of a float: the fraction is discarded. -/
def intOfFloat64 (x : ℚ) : ℤ := if 0 ≤ x then ⌊x⌋ else ⌈x⌉

/-- The constant `time.Hour`, in nanoseconds. -/
def Hour : ℤ := 3600000000000

/-- Twenty-four hours, in nanoseconds. -/
def Day : ℤ := 24 * Hour

def minDuration : ℤ := -9223372036854775808
def maxDuration : ℤ := 9223372036854775807

/-- The function `Time.Sub` on instants counted in nanoseconds: the difference `t - u`,
replaced by the smallest or largest `Duration` when it does not fit. -/
def Time.Sub (t u : ℤ) : ℤ :=
  if t - u < minDuration then minDuration
  else if maxDuration < t - u then maxDuration
  else t - u

/-- The function `time.Until(t)` is `t.Sub(time.Now())`. -/
def time.Until (now t : ℤ) : ℤ := Time.Sub t now

/-- The function `Duration.Hours`: `hour := d / Hour; nsec := d % Hour;
return float64(hour) + float64(nsec)/(60*60*1e9)`, with Go integer division. -/
def Duration.Hours (d : ℤ) : ℚ :=
  roundFloat64 (float64OfInt (Int.tdiv d Hour)
    + roundFloat64 (float64OfInt (Int.tmod d Hour) / 3600000000000))

/-- The expression `int(d.Hours() / 24)` of `checkCertificateExpiration`. -/
def durationDays (d : ℤ) : ℤ := intOfFloat64 (roundFloat64 (Duration.Hours d / 24))

/-! ## The renewal decision -/

/-- What `acme.go` uses of a parsed `x509.Certificate`: the expiry instant and the
verdict of `VerifyHostname` (`none` is a nil error). -/
structure Certificate where
  NotAfter : ℤ
  VerifyHostname : String → Option GoError

structure Resource where
  Certificate : String
  PrivateKey : String
  deriving DecidableEq

structure MyUser where
  Email : String
  Registration : Option String
  key : String
  deriving DecidableEq

structure Client where
  user : MyUser
  CADirURL : String
  deriving DecidableEq

/-- The libraries and processes `acme.go` calls: the clock, `pem.Decode` (the bytes of
the first block), `x509.ParseCertificate`, `ecdsa.GenerateKey`, the lego client
(construction, provider registration, account registration, `Certificate.Obtain`, which
works on the filesystem through the provider) and the `nginx -s reload` process. -/
structure Collaborators where
  now : ℤ
  pemDecode : String → Option String
  parseCertificate : String → Except GoError Certificate
  generateKey : Except GoError String
  newClient : MyUser → String → Option GoError
  setHTTP01Provider : Option GoError
  register : Except GoError String
  obtain : List String → Bool → FS → Except GoError Resource × FS
  nginxReload : Option GoError

/-- What a run does besides changing the filesystem: log lines, and the entry into each
of the four steps of `run` that act on the outside. -/
inductive Event
  | log (msg : String)
  | call (fn : String)
  deriving DecidableEq

def Event.isCall : Event → Bool
  | .call _ => true
  | .log _ => false

structure CheckResult where
  needsRenewal : Bool
  err : Option GoError
  logs : List String
  deriving DecidableEq

/-- The loop over `domains`: the first domain `VerifyHostname` rejects, with its error. -/
def firstRejected (cert : Certificate) : List String → Option (String × GoError)
  | [] => none
  | domain :: rest =>
    match cert.VerifyHostname domain with
    | some err => some (domain, err)
    | none => firstRejected cert rest

def checkCertificateExpiration (w : Collaborators) (fs : FS) (certPath : String)
    (domains : List String) (expiryDaysThreshold : ℤ) : CheckResult :=
  match os.ReadFile fs certPath with
  | .error err =>
    if os.IsNotExist err then ⟨true, none, []⟩
    else ⟨false, some err, []⟩
  | .ok certPEMBlock =>
    match w.pemDecode certPEMBlock with
    | none => ⟨false, some (.errorf "failed to parse certificate PEM data"), []⟩
    | some der =>
      match w.parseCertificate der with
      | .error err => ⟨false, some (.errorf ("failed to parse certificate: " ++ err.Error)), []⟩
      | .ok cert =>
        match firstRejected cert domains with
        | some (domain, err) =>
          ⟨true, none, ["Certificate is not valid for domain " ++ domain ++ ": " ++ err.Error]⟩
        | none =>
          ⟨decide (durationDays (time.Until w.now cert.NotAfter) ≤ expiryDaysThreshold), none,
            ["Certificate expires in "
              ++ toString (durationDays (time.Until w.now cert.NotAfter)) ++ " days"]⟩

/-! ## Issuance, persistence, reload and `run` -/

def setupACMEClient (w : Collaborators) (cfg : Config) : Except GoError Client :=
  match w.generateKey with
  | .error err => .error (.wrap "generating private key" err)
  | .ok privateKey =>
    match w.newClient ⟨cfg.Email, none, privateKey⟩ cfg.CADirURL with
    | some err => .error (.wrap "creating ACME client" err)
    | none =>
      match w.setHTTP01Provider with
      | some err => .error (.wrap "setting HTTP-01 provider" err)
      | none =>
        match w.register with
        | .error err => .error (.wrap "registering user" err)
        | .ok reg => .ok ⟨⟨cfg.Email, some reg, privateKey⟩, cfg.CADirURL⟩

def obtainCertificate (w : Collaborators) (client : Client) (domains : List String)
    (fs : FS) : Except GoError Resource × FS :=
  w.obtain domains true fs

def saveCertificateAndKey (fs : FS) (cert : Resource) (certPath keyPath : String) :
    FS × Option GoError :=
  match os.WriteFile fs certPath cert.Certificate with
  | (fs1, some err) => (fs1, some (.wrap "saving certificate" err))
  | (fs1, none) =>
    match os.WriteFile fs1 keyPath cert.PrivateKey with
    | (fs2, some err) => (fs2, some (.wrap "saving private key" err))
    | (fs2, none) => (fs2, none)

def reloadNginx (w : Collaborators) : Option GoError :=
  w.nginxReload

structure RunResult where
  err : Option GoError
  fs : FS
  trace : List Event
  deriving DecidableEq

/-- The log lines of the first part of `run`: those of the check, then the error of the
check when there is one. -/
def checkTrace (chk : CheckResult) : List Event :=
  chk.logs.map Event.log ++
    (match chk.err with
     | some err => [Event.log ("Error checking certificate expiration: " ++ err.Error)]
     | none => [])

def run (w : Collaborators) (cfg : Config) (fs : FS) : RunResult :=
  if cfg.Domain = "" then
    ⟨some (.errorf "DOMAIN environment variable is not set"), fs, []⟩
  else
    let domains := getDomains cfg
    let chk := checkCertificateExpiration w fs cfg.CertPath domains cfg.ExpiryDaysThreshold
    if !chk.needsRenewal then
      ⟨none, fs,
        checkTrace chk ++ [Event.log "Certificate is still valid and not due for renewal"]⟩
    else
      match setupACMEClient w cfg with
      | .error err =>
        ⟨some (.wrap "setting up ACME client" err), fs,
          checkTrace chk ++ [Event.call "setupACMEClient"]⟩
      | .ok client =>
        match obtainCertificate w client domains fs with
        | (.error err, fs1) =>
          ⟨some (.wrap "obtaining certificate" err), fs1,
            checkTrace chk ++ [Event.call "setupACMEClient", Event.call "obtainCertificate"]⟩
        | (.ok certificates, fs1) =>
          match saveCertificateAndKey fs1 certificates cfg.CertPath cfg.KeyPath with
          | (fs2, some err) =>
            ⟨some (.wrap "saving certificate and key" err), fs2,
              checkTrace chk ++ [Event.call "setupACMEClient", Event.call "obtainCertificate",
                Event.call "saveCertificateAndKey"]⟩
          | (fs2, none) =>
            match reloadNginx w with
            | some err =>
              ⟨some (.wrap "reloading Nginx" err), fs2,
                checkTrace chk ++ [Event.call "setupACMEClient", Event.call "obtainCertificate",
                  Event.call "saveCertificateAndKey", Event.call "reloadNginx"]⟩
            | none =>
              ⟨none, fs2,
                checkTrace chk ++ [Event.call "setupACMEClient", Event.call "obtainCertificate",
                  Event.call "saveCertificateAndKey", Event.call "reloadNginx",
                  Event.log "Certificate obtained and Nginx reloaded successfully"]⟩


/-! ## Example states -/

def fsEmpty : FS := ⟨[], []⟩

/-- A filesystem in which `/etc/ssl/private` is a regular file. -/
def fsPrivateIsFile : FS :=
  ⟨[(["etc"], .dir), (["etc", "ssl"], .dir), (["etc", "ssl", "private"], .file "")], []⟩

/-- A filesystem holding one file, with the given content, at the default certificate
path. -/
def fsWithCert (content : String) : FS :=
  ⟨[(["etc"], .dir), (["etc", "ssl"], .dir), (["etc", "ssl", "private"], .dir),
    (["etc", "ssl", "private", "fullchain.pem"], .file content)], []⟩

/-- A filesystem in which the challenge directory exists and holds an older proof under
the token `tok`. -/
def fsStaleToken : FS :=
  ⟨[(["usr", "share", "nginx", "challenge", ".well-known", "acme-challenge", "tok"],
      .file "an older proof"),
    (["usr", "share", "nginx", "challenge", ".well-known", "acme-challenge"], .dir),
    (["usr", "share", "nginx", "challenge", ".well-known"], .dir),
    (["usr", "share", "nginx", "challenge"], .dir),
    (["usr", "share", "nginx"], .dir),
    (["usr", "share"], .dir),
    (["usr"], .dir)], []⟩

/-- A certificate that expires at `notAfter` and is valid for exactly `names`. -/
def certFor (notAfter : ℤ) (names : List String) : Certificate :=
  ⟨notAfter, fun host =>
    if host ∈ names then none
    else some (.collaborator ("x509: certificate is not valid for " ++ host))⟩

/-- Collaborators for which the file content `PEM` decodes to the block `DER`, which
parses to `cert`; every other content is rejected. Issuance always succeeds. -/
def worldWith (now : ℤ) (cert : Certificate) : Collaborators :=
  ⟨now,
   fun content => if content = "PEM" then some "DER" else none,
   fun der => if der = "DER" then .ok cert else .error (.collaborator "x509: malformed certificate"),
   .ok "account key",
   fun _ _ => none,
   none,
   .ok "registration",
   fun _ _ fs => (.ok ⟨"CERTIFICATE CHAIN", "PRIVATE KEY"⟩, fs),
   none⟩

def exampleNow : ℤ := 1700000000000000000

def exampleConfig (threshold : ℤ) : Config :=
  ⟨defaultEmail, "example.com", ["www.example.com", "api.example.com"], defaultCertPath,
    defaultKeyPath, defaultCADirURL, threshold⟩

def exampleNames : List String := ["example.com", "www.example.com", "api.example.com"]

/-! ## Filesystem lemmas -/

theorem FS.lookup_set_self (fs : FS) (p : Path) (n : Node) (hp : p ≠ []) :
    (fs.set p n).lookup p = some n := by
  simp [FS.lookup, FS.set, hp, List.lookup]

theorem FS.lookup_set_of_ne (fs : FS) (p q : Path) (n : Node) (hq : q ≠ p) :
    (fs.set p n).lookup q = fs.lookup q := by
  unfold FS.lookup FS.set
  by_cases h0 : q = []
  · simp [h0]
  · simp only [h0, if_false]
    rw [List.lookup_cons]
    have : (q == p) = false := by simpa using hq
    rw [this]

theorem lookup_filter_self (es : List (Path × Node)) (p : Path) :
    (es.filter (fun e => !(e.1 == p))).lookup p = none := by
  induction es with
  | nil => rfl
  | cons e es ih =>
    obtain ⟨k, v⟩ := e
    by_cases h : k = p
    · rw [List.filter_cons_of_neg (by simp [h])]; exact ih
    · rw [List.filter_cons_of_pos (by simp [h]), List.lookup_cons]
      have hb : (p == k) = false := by simpa using fun h2 => h h2.symm
      rw [hb]; exact ih

theorem lookup_filter_of_ne (es : List (Path × Node)) (p q : Path) (hq : q ≠ p) :
    (es.filter (fun e => !(e.1 == p))).lookup q = es.lookup q := by
  induction es with
  | nil => rfl
  | cons e es ih =>
    obtain ⟨k, v⟩ := e
    by_cases h : k = p
    · rw [List.filter_cons_of_neg (by simp [h]), List.lookup_cons]
      have hb : (q == k) = false := by rw [h]; simpa using hq
      rw [hb]; exact ih
    · rw [List.filter_cons_of_pos (by simp [h]), List.lookup_cons, List.lookup_cons, ih]

theorem FS.lookup_erase_self (fs : FS) (p : Path) (hp : p ≠ []) :
    (fs.erase p).lookup p = none := by
  simp [FS.lookup, FS.erase, hp, lookup_filter_self]

theorem FS.lookup_erase_of_ne (fs : FS) (p q : Path) (hq : q ≠ p) :
    (fs.erase p).lookup q = fs.lookup q := by
  unfold FS.lookup FS.erase
  by_cases h0 : q = []
  · simp [h0]
  · simp only [h0, if_false]
    exact lookup_filter_of_ne _ _ _ hq

/-- A walk that succeeds keeps succeeding, with the same result, in any filesystem that
keeps every directory. -/
theorem FS.walk_of_dirs_kept (fs fs2 : FS)
    (hdirs : ∀ q, fs.lookup q = some Node.dir → fs2.lookup q = some Node.dir)
    (comps : List String) (cur r : Path) (h : fs.walk cur comps = .ok r) :
    fs2.walk cur comps = .ok r := by
  induction comps generalizing cur with
  | nil => simpa [FS.walk] using h
  | cons c rest ih =>
    unfold FS.walk at h ⊢
    cases hl : fs.lookup cur with
    | none => rw [hl] at h; cases h
    | some n =>
      cases n with
      | file d => rw [hl] at h; cases h
      | dir =>
        rw [hl] at h
        rw [hdirs cur hl]
        simp only at h ⊢
        split_ifs at h ⊢ with h1 h2
        · exact ih _ h
        · exact ih _ h
        · exact ih _ h

/-- After an entry is erased, a walk that used to reach it either still does or stops
with ENOENT (at the erased entry). -/
theorem FS.walk_erase (fs : FS) (p : Path) (comps : List String) (cur r : Path)
    (h : fs.walk cur comps = .ok r) :
    (fs.erase p).walk cur comps = .ok r ∨ (fs.erase p).walk cur comps = .error .ENOENT := by
  induction comps generalizing cur with
  | nil => left; simpa [FS.walk] using h
  | cons c rest ih =>
    unfold FS.walk at h ⊢
    cases hl : fs.lookup cur with
    | none => rw [hl] at h; cases h
    | some n =>
      cases n with
      | file d => rw [hl] at h; cases h
      | dir =>
        rw [hl] at h
        by_cases hcp : cur = p
        · by_cases hp0 : p = []
          · subst hcp
            have : (fs.erase cur).lookup cur = some Node.dir := by simp [FS.lookup, hp0]
            rw [this]
            simp only at h ⊢
            split_ifs at h ⊢ with h1 h2
            · exact ih _ h
            · exact ih _ h
            · exact ih _ h
          · right
            rw [hcp, FS.lookup_erase_self fs p hp0]
        · rw [FS.lookup_erase_of_ne fs p cur hcp, hl]
          simp only at h ⊢
          split_ifs at h ⊢ with h1 h2
          · exact ih _ h
          · exact ih _ h
          · exact ih _ h

theorem FS.resolve_of_dirs_kept (fs fs2 : FS) (hcwd : fs2.cwd = fs.cwd)
    (hdirs : ∀ q, fs.lookup q = some Node.dir → fs2.lookup q = some Node.dir)
    (name : String) (r : Path) (h : fs.resolve name = .ok r) : fs2.resolve name = .ok r := by
  unfold FS.resolve at h ⊢
  by_cases h0 : name = ""
  · rw [if_pos h0] at h; cases h
  · rw [if_neg h0] at h ⊢
    rw [hcwd]
    exact FS.walk_of_dirs_kept fs fs2 hdirs _ _ _ h

/-- What a successful WriteFile leaves behind: reading the same name gives the data. -/
theorem os.ReadFile_of_WriteFile (fs fs1 : FS) (name data : String)
    (h : os.WriteFile fs name data = (fs1, none)) : os.ReadFile fs1 name = .ok data := by
  unfold os.WriteFile at h
  cases hr : fs.resolve name with
  | error e => rw [hr] at h; simp at h
  | ok p =>
    rw [hr] at h
    simp only at h
    have hnd : fs.lookup p ≠ some Node.dir := by
      intro hd; rw [hd] at h; simp at h
    have hp0 : p ≠ [] := by
      intro h0; apply hnd; simp [FS.lookup, h0]
    have hfs1 : fs1 = fs.set p (.file data) := by
      cases hl : fs.lookup p with
      | none => rw [hl] at h; simp at h; exact h.symm
      | some n =>
        cases n with
        | dir => exact absurd hl hnd
        | file d => rw [hl] at h; simp at h; exact h.symm
    subst hfs1
    have hdirs : ∀ q, fs.lookup q = some Node.dir →
        (fs.set p (.file data)).lookup q = some Node.dir := by
      intro q hq
      have : q ≠ p := by intro e; rw [e] at hq; exact hnd hq
      rw [FS.lookup_set_of_ne fs p q _ this]; exact hq
    unfold os.ReadFile
    rw [FS.resolve_of_dirs_kept fs (fs.set p (.file data)) rfl hdirs name p hr]
    simp [FS.lookup_set_self fs p _ hp0]

/-- Remove on a name that Stat cannot find fails with the error of Stat and changes
nothing. -/
theorem os.Remove_of_Stat_error (fs : FS) (name : String) (e : Errno)
    (h : os.Stat fs name = .error e) :
    os.Remove fs name = (fs, some (.pathError "remove" name e)) := by
  unfold os.Stat at h
  unfold os.Remove unlink rmdir
  cases hr : fs.resolve name with
  | error e2 =>
    rw [hr] at h; simp at h; subst h
    simp
  | ok p =>
    rw [hr] at h
    simp only at h
    cases hl : fs.lookup p with
    | none => rw [hl] at h; simp at h; subst h; simp [hl]
    | some n => rw [hl] at h; simp at h

/-- A successful Remove leaves nothing to be found under the name. -/
theorem os.Stat_of_Remove (fs fs2 : FS) (name : String)
    (h : os.Remove fs name = (fs2, none)) : os.Stat fs2 name = .error .ENOENT := by
  have key : ∀ p, fs.resolve name = .ok p → p ≠ [] →
      os.Stat (fs.erase p) name = .error .ENOENT := by
    intro p hr hp0
    unfold os.Stat
    unfold FS.resolve at hr ⊢
    by_cases h0 : name = ""
    · rw [if_pos h0]
    · rw [if_neg h0] at hr ⊢
      have hcwd : (fs.erase p).cwd = fs.cwd := rfl
      rw [hcwd]
      rcases FS.walk_erase fs p _ _ _ hr with hw | hw
      · rw [hw]; simp [FS.lookup_erase_self fs p hp0]
      · rw [hw]
  unfold os.Remove unlink rmdir at h
  cases hr : fs.resolve name with
  | error e2 => rw [hr] at h; simp at h
  | ok p =>
    rw [hr] at h
    simp only at h
    cases hl : fs.lookup p with
    | none => rw [hl] at h; simp at h
    | some n =>
      cases n with
      | file d =>
        rw [hl] at h; simp at h
        have hp0 : p ≠ [] := by
          intro h0; rw [h0] at hl; simp [FS.lookup] at hl
        rw [← h]; exact key p hr hp0
      | dir =>
        rw [hl] at h; simp only at h
        by_cases hp0 : p = []
        · simp [hp0] at h
        · simp only [hp0, if_false] at h
          by_cases hc : fs.hasChildren p = true
          · simp [hc] at h
          · simp [hc] at h
            rw [← h]; exact key p hr hp0
/-! ## `float64` rounding: nearest, exact on floats, monotone -/

theorem roundHalfEven_cases (x : ℚ) : roundHalfEven x = ⌊x⌋ ∧ x - ⌊x⌋ ≤ 1 / 2 ∨
    roundHalfEven x = ⌊x⌋ + 1 ∧ 1 / 2 ≤ x - ⌊x⌋ := by
  unfold roundHalfEven
  split_ifs with h1 h2 h3
  · exact Or.inl ⟨rfl, le_of_lt h1⟩
  · exact Or.inr ⟨rfl, le_of_lt h2⟩
  · exact Or.inl ⟨rfl, not_lt.mp h2⟩
  · exact Or.inr ⟨rfl, not_lt.mp h1⟩

theorem roundHalfEven_nearest (x : ℚ) (m : ℤ) :
    |x - (roundHalfEven x : ℚ)| ≤ |x - (m : ℚ)| := by
  have hfl : (⌊x⌋ : ℚ) ≤ x := Int.floor_le x
  have hlt : x < (⌊x⌋ : ℚ) + 1 := Int.lt_floor_add_one x
  have hm : (m : ℚ) ≤ (⌊x⌋ : ℚ) ∨ (⌊x⌋ : ℚ) + 1 ≤ (m : ℚ) := by
    rcases le_or_lt m ⌊x⌋ with h | h
    · exact Or.inl (by exact_mod_cast h)
    · exact Or.inr (by exact_mod_cast h)
  rcases roundHalfEven_cases x with ⟨hr, hc⟩ | ⟨hr, hc⟩
  · rw [hr]
    rcases hm with h | h
    · rw [abs_of_nonneg (by linarith), abs_of_nonneg (by linarith)]; linarith
    · rw [abs_of_nonneg (by linarith), abs_of_nonpos (by linarith)]; linarith
  · rw [hr]; push_cast
    rcases hm with h | h
    · rw [abs_of_nonpos (by linarith), abs_of_nonneg (by linarith)]; linarith
    · rw [abs_of_nonpos (by linarith), abs_of_nonpos (by linarith)]; linarith

theorem roundHalfEven_bounds (x : ℚ) :
    (⌊x⌋ : ℤ) ≤ roundHalfEven x ∧ roundHalfEven x ≤ ⌊x⌋ + 1 := by
  rcases roundHalfEven_cases x with ⟨hr, _⟩ | ⟨hr, _⟩ <;> rw [hr] <;> constructor <;> omega

theorem ulp_pos (a : ℚ) : 0 < ulp a := by
  unfold ulp; positivity

/-- For positive a, the scaled significand a / ulp a lies in [2^52, 2^53). -/
theorem scaled_bounds {a : ℚ} (ha : 0 < a) :
    (2 : ℚ) ^ 52 ≤ a / ulp a ∧ a / ulp a < (2 : ℚ) ^ 53 := by
  have h1 : ((2 : ℕ) : ℚ) ^ Int.log 2 a ≤ a := Int.zpow_log_le_self (by norm_num) ha
  have h2 : a < ((2 : ℕ) : ℚ) ^ (Int.log 2 a + 1) := Int.lt_zpow_succ_log_self (by norm_num) a
  have hu := ulp_pos a
  have e1 : ((2 : ℕ) : ℚ) ^ Int.log 2 a = (2 : ℚ) ^ 52 * ulp a := by
    unfold ulp
    rw [← zpow_natCast (2 : ℚ) 52, ← zpow_add₀ (by norm_num)]
    norm_num
  have e2 : ((2 : ℕ) : ℚ) ^ (Int.log 2 a + 1) = (2 : ℚ) ^ 53 * ulp a := by
    unfold ulp
    rw [← zpow_natCast (2 : ℚ) 53, ← zpow_add₀ (by norm_num)]
    have : Int.log 2 a + 1 = ((53 : ℕ) : ℤ) + (Int.log 2 a - 52) := by push_cast; ring
    rw [this]; norm_num
  rw [e1] at h1; rw [e2] at h2
  exact ⟨(le_div_iff₀ hu).mpr h1, (div_lt_iff₀ hu).mpr h2⟩

theorem IsFloat64.neg {f : ℚ} (hf : IsFloat64 f) : IsFloat64 (-f) := by
  obtain ⟨m, e, hm, rfl⟩ := hf
  exact ⟨-m, e, by rwa [abs_neg], by push_cast; ring⟩

theorem isFloat64_intCast (k : ℤ) (hk : |k| < 2 ^ 53) : IsFloat64 (k : ℚ) :=
  ⟨k, 0, hk, by simp⟩

/-- A float scaled by the unit in the last place of the binade of a is either an integer
or smaller in magnitude than 2^52. -/
theorem scaled_float (a : ℚ) {f : ℚ} (hf : IsFloat64 f) :
    (∃ z : ℤ, f / ulp a = z) ∨ |f / ulp a| < (2 : ℚ) ^ 52 := by
  obtain ⟨m, k, hm, rfl⟩ := hf
  have hdiv : (m : ℚ) * (2 : ℚ) ^ k / ulp a = m * (2 : ℚ) ^ (k - (Int.log 2 a - 52)) := by
    unfold ulp
    rw [zpow_sub₀ (by norm_num : (2 : ℚ) ≠ 0) k]
    field_simp
  rw [hdiv]
  rcases le_or_lt 0 (k - (Int.log 2 a - 52)) with hj | hj
  · left
    obtain ⟨n, hn⟩ := Int.eq_ofNat_of_zero_le hj
    refine ⟨m * 2 ^ n, ?_⟩
    rw [hn, zpow_natCast]; push_cast; ring
  · right
    have hm' : |(m : ℚ)| < (2 : ℚ) ^ 53 := by exact_mod_cast hm
    have hp : (2 : ℚ) ^ (k - (Int.log 2 a - 52)) ≤ (2 : ℚ) ^ (-1 : ℤ) :=
      zpow_le_zpow_right₀ (by norm_num) (by omega)
    have hpos : (0 : ℚ) < (2 : ℚ) ^ (k - (Int.log 2 a - 52)) := by positivity
    rw [abs_mul, abs_of_pos hpos]
    calc |(m : ℚ)| * (2 : ℚ) ^ (k - (Int.log 2 a - 52))
        ≤ |(m : ℚ)| * (2 : ℚ) ^ (-1 : ℤ) := by
          exact mul_le_mul_of_nonneg_left hp (abs_nonneg _)
      _ < (2 : ℚ) ^ 53 * (2 : ℚ) ^ (-1 : ℤ) := by
          exact mul_lt_mul_of_pos_right hm' (by positivity)
      _ = (2 : ℚ) ^ 52 := by norm_num

theorem roundMag_nearest {a : ℚ} (ha : 0 < a) {f : ℚ} (hf : IsFloat64 f) :
    |a - roundMag a| ≤ |a - f| := by
  have hu := ulp_pos a
  obtain ⟨hlo, hhi⟩ := scaled_bounds ha
  have key : |a / ulp a - (roundHalfEven (a / ulp a) : ℚ)| ≤ |a / ulp a - f / ulp a| := by
    rcases scaled_float a hf with ⟨z, hz⟩ | hsmall
    · rw [hz]; exact roundHalfEven_nearest _ z
    · have h1 := roundHalfEven_nearest (a / ulp a) (2 ^ 52)
      have hc : (((2 ^ 52 : ℤ)) : ℚ) = (2 : ℚ) ^ 52 := by norm_num
      rw [hc, abs_of_nonneg (by linarith : (0 : ℚ) ≤ a / ulp a - 2 ^ 52)] at h1
      have h2 : f / ulp a < (2 : ℚ) ^ 52 := lt_of_le_of_lt (le_abs_self _) hsmall
      have h3 : a / ulp a - f / ulp a ≤ |a / ulp a - f / ulp a| := le_abs_self _
      linarith
  have e1 : a - roundMag a = (a / ulp a - (roundHalfEven (a / ulp a) : ℚ)) * ulp a := by
    unfold roundMag
    rw [if_neg (ne_of_gt ha)]
    field_simp
    ring
  have e2 : a - f = (a / ulp a - f / ulp a) * ulp a := by field_simp
  rw [e1, e2, abs_mul, abs_mul, abs_of_pos hu]
  exact mul_le_mul_of_nonneg_right key (le_of_lt hu)

theorem roundMag_zero : roundMag 0 = 0 := by simp [roundMag]

theorem roundMag_isFloat64 {a : ℚ} (ha : 0 ≤ a) : IsFloat64 (roundMag a) := by
  rcases eq_or_lt_of_le ha with h0 | hpos
  · rw [← h0, roundMag_zero]; exact ⟨0, 0, by norm_num, by simp⟩
  · obtain ⟨hlo, hhi⟩ := scaled_bounds hpos
    obtain ⟨hb1, hb2⟩ := roundHalfEven_bounds (a / ulp a)
    have hf1 : (2 : ℤ) ^ 52 ≤ ⌊a / ulp a⌋ := by
      apply Int.le_floor.mpr; push_cast; exact hlo
    have hf2 : ⌊a / ulp a⌋ < (2 : ℤ) ^ 53 := by
      apply Int.floor_lt.mpr; push_cast; exact hhi
    unfold roundMag
    rw [if_neg (ne_of_gt hpos)]
    rcases lt_or_eq_of_le (show roundHalfEven (a / ulp a) ≤ 2 ^ 53 by omega) with hlt | heq
    · exact ⟨roundHalfEven (a / ulp a), Int.log 2 a - 52,
        by rw [abs_of_nonneg (by omega)]; exact hlt, rfl⟩
    · refine ⟨2 ^ 52, Int.log 2 a - 52 + 1, by norm_num, ?_⟩
      rw [heq, zpow_add₀ (by norm_num : (2 : ℚ) ≠ 0)]
      unfold ulp; push_cast; ring

theorem roundMag_nonneg {a : ℚ} (ha : 0 ≤ a) : 0 ≤ roundMag a := by
  rcases eq_or_lt_of_le ha with h0 | hpos
  · rw [← h0, roundMag_zero]
  · obtain ⟨hlo, _⟩ := scaled_bounds hpos
    obtain ⟨hb1, _⟩ := roundHalfEven_bounds (a / ulp a)
    have hf1 : (0 : ℤ) ≤ ⌊a / ulp a⌋ := by
      apply Int.le_floor.mpr; push_cast; linarith [show (0:ℚ) ≤ 2 ^ 52 by positivity]
    unfold roundMag
    rw [if_neg (ne_of_gt hpos)]
    have : (0 : ℚ) ≤ (roundHalfEven (a / ulp a) : ℚ) := by exact_mod_cast (by omega : 0 ≤ roundHalfEven (a / ulp a))
    exact mul_nonneg this (le_of_lt (ulp_pos a))

theorem roundFloat64_neg (q : ℚ) : roundFloat64 (-q) = -roundFloat64 q := by
  unfold roundFloat64
  rcases lt_trichotomy q 0 with h | h | h
  · rw [if_neg (by linarith : ¬ -q < 0), if_pos h]; simp
  · subst h; simp [roundMag_zero]
  · rw [if_pos (by linarith : -q < 0), if_neg (by linarith : ¬ q < 0)]; simp

theorem roundFloat64_nearest (q : ℚ) {f : ℚ} (hf : IsFloat64 f) :
    |q - roundFloat64 q| ≤ |q - f| := by
  unfold roundFloat64
  rcases lt_trichotomy q 0 with h | h | h
  · rw [if_pos h]
    have := roundMag_nearest (by linarith : 0 < -q) hf.neg
    have e1 : q - -roundMag (-q) = -(-q - roundMag (-q)) := by ring
    have e2 : q - f = -(-q - -f) := by ring
    rw [e1, e2, abs_neg, abs_neg]; exact this
  · subst h; simp [roundMag_zero]
  · rw [if_neg (by linarith : ¬ q < 0)]
    exact roundMag_nearest h hf

theorem roundFloat64_isFloat64 (q : ℚ) : IsFloat64 (roundFloat64 q) := by
  unfold roundFloat64
  split_ifs with h
  · exact (roundMag_isFloat64 (by linarith)).neg
  · exact roundMag_isFloat64 (not_lt.mp h)

theorem roundFloat64_exact {q : ℚ} (hq : IsFloat64 q) : roundFloat64 q = q := by
  have h := roundFloat64_nearest q hq
  simp only [sub_self, abs_zero] at h
  have := abs_nonneg (q - roundFloat64 q)
  have h0 : |q - roundFloat64 q| = 0 := le_antisymm h this
  have := abs_eq_zero.mp h0
  linarith

theorem roundFloat64_mono {x y : ℚ} (hxy : x ≤ y) : roundFloat64 x ≤ roundFloat64 y := by
  by_contra hcon
  push_neg at hcon
  have h1 := roundFloat64_nearest x (roundFloat64_isFloat64 y)
  have h2 := roundFloat64_nearest y (roundFloat64_isFloat64 x)
  have hx : roundFloat64 x + roundFloat64 y ≤ 2 * x := by
    by_contra hc
    push_neg at hc
    rcases abs_cases (x - roundFloat64 x) with ⟨e1, _⟩ | ⟨e1, _⟩ <;>
    rcases abs_cases (x - roundFloat64 y) with ⟨e2, _⟩ | ⟨e2, _⟩ <;>
    rw [e1, e2] at h1 <;> linarith
  have hy : 2 * y ≤ roundFloat64 x + roundFloat64 y := by
    by_contra hc
    push_neg at hc
    rcases abs_cases (y - roundFloat64 y) with ⟨e1, _⟩ | ⟨e1, _⟩ <;>
    rcases abs_cases (y - roundFloat64 x) with ⟨e2, _⟩ | ⟨e2, _⟩ <;>
    rw [e1, e2] at h2 <;> linarith
  have hxy' : x = y := by linarith
  subst hxy'
  exact lt_irrefl _ hcon

theorem roundFloat64_zero : roundFloat64 0 = 0 := by
  simp [roundFloat64, roundMag_zero]

theorem float64OfInt_exact (k : ℤ) (hk : |k| < 2 ^ 53) : float64OfInt k = k :=
  roundFloat64_exact (isFloat64_intCast k hk)

theorem roundFloat64_intCast (k : ℤ) (hk : |k| < 2 ^ 53) : roundFloat64 (k : ℚ) = k :=
  roundFloat64_exact (isFloat64_intCast k hk)

theorem tmod_neg_left (a b : ℤ) : (-a).tmod b = -(a.tmod b) := by
  have h1 := Int.tmod_add_tdiv (-a) b
  have h2 := Int.tmod_add_tdiv a b
  rw [Int.neg_tdiv] at h1
  linarith [mul_neg b (a.tdiv b)]

/-- The fractional-hour term of Hours lies in [0, 1] for a non-negative duration. -/
theorem hours_frac_bounds (d : ℤ) :
    0 ≤ roundFloat64 (float64OfInt (d % Hour) / 3600000000000) ∧
    roundFloat64 (float64OfInt (d % Hour) / 3600000000000) ≤ 1 := by
  have h0 : 0 ≤ d % Hour := by unfold Hour; omega
  have h1 : d % Hour < 3600000000000 := by unfold Hour; omega
  have he : float64OfInt (d % Hour) = ((d % Hour : ℤ) : ℚ) :=
    float64OfInt_exact _ (by rw [abs_of_nonneg h0]; omega)
  rw [he]
  have q0 : (0 : ℚ) ≤ ((d % Hour : ℤ) : ℚ) := by exact_mod_cast h0
  have q1 : ((d % Hour : ℤ) : ℚ) < 3600000000000 := by exact_mod_cast h1
  constructor
  · have := roundFloat64_mono (show (0 : ℚ) ≤ ((d % Hour : ℤ) : ℚ) / 3600000000000 by positivity)
    rwa [roundFloat64_zero] at this
  · have hle : ((d % Hour : ℤ) : ℚ) / 3600000000000 ≤ ((1 : ℤ) : ℚ) := by
      rw [div_le_iff₀ (by norm_num)]; push_cast; linarith
    have := roundFloat64_mono hle
    rwa [roundFloat64_intCast 1 (by norm_num)] at this

theorem hours_unfold_nonneg (d : ℤ) (hd : 0 ≤ d) (hd2 : d ≤ 2 ^ 63) :
    Duration.Hours d = roundFloat64 (((d / Hour : ℤ) : ℚ)
      + roundFloat64 (float64OfInt (d % Hour) / 3600000000000)) := by
  unfold Duration.Hours
  rw [Int.tdiv_eq_ediv hd (by unfold Hour; norm_num), Int.tmod_eq_emod hd (by unfold Hour; norm_num)]
  rw [float64OfInt_exact (d / Hour) (by unfold Hour; rw [abs_of_nonneg (by omega)]; omega)]

theorem hours_lower (d k : ℤ) (hd : 0 ≤ d) (hd2 : d ≤ 2 ^ 63) (hk0 : 0 ≤ k)
    (hk : k * Hour ≤ d) : (k : ℚ) ≤ Duration.Hours d := by
  rw [hours_unfold_nonneg d hd hd2]
  have hkh : k ≤ d / Hour := by unfold Hour at *; omega
  have hk53 : |k| < 2 ^ 53 := by rw [abs_of_nonneg hk0]; unfold Hour at *; omega
  obtain ⟨f0, _⟩ := hours_frac_bounds d
  have hq : (k : ℚ) ≤ ((d / Hour : ℤ) : ℚ) := by exact_mod_cast hkh
  have := roundFloat64_mono (show (k : ℚ) ≤ ((d / Hour : ℤ) : ℚ)
      + roundFloat64 (float64OfInt (d % Hour) / 3600000000000) by linarith)
  rwa [roundFloat64_intCast k hk53] at this

theorem hours_upper (d k : ℤ) (hd : 0 ≤ d) (hd2 : d ≤ 2 ^ 63) (hk : d ≤ k * Hour)
    (hk53 : k < 2 ^ 53) : Duration.Hours d ≤ (k : ℚ) := by
  have hk0 : 0 ≤ k := by unfold Hour at *; omega
  rw [hours_unfold_nonneg d hd hd2]
  obtain ⟨_, f1⟩ := hours_frac_bounds d
  have hsum : ((d / Hour : ℤ) : ℚ)
      + roundFloat64 (float64OfInt (d % Hour) / 3600000000000) ≤ (k : ℚ) := by
    rcases lt_or_le (d / Hour) k with hlt | hge
    · have : ((d / Hour : ℤ) : ℚ) ≤ (k : ℚ) - 1 := by
        have : d / Hour ≤ k - 1 := by omega
        exact_mod_cast this
      linarith
    · have hdk : d / Hour = k := by unfold Hour at *; omega
      have hm : d % Hour = 0 := by unfold Hour at *; omega
      rw [hdk, hm]
      simp [float64OfInt, roundFloat64_zero]
  have := roundFloat64_mono hsum
  rwa [roundFloat64_intCast k (by rw [abs_of_nonneg hk0]; exact hk53)] at this

theorem hours_upper_fine (d k : ℤ) (hd : 0 ≤ d) (hd2 : d ≤ 2 ^ 63) (hk : d ≤ k * Hour - 2000)
    (hk22 : k ≤ 2 ^ 22) : Duration.Hours d ≤ (k : ℚ) - 1 / 2 ^ 31 := by
  have hk1 : 1 ≤ k := by unfold Hour at *; omega
  rw [hours_unfold_nonneg d hd hd2]
  obtain ⟨_, f1⟩ := hours_frac_bounds d
  have hfl : IsFloat64 ((k : ℚ) - 1 / 2 ^ 31) :=
    ⟨k * 2 ^ 31 - 1, -31, by rw [abs_of_nonneg (by omega)]; omega, by
      rw [zpow_neg]; push_cast; norm_num; ring⟩
  have hsum : ((d / Hour : ℤ) : ℚ)
      + roundFloat64 (float64OfInt (d % Hour) / 3600000000000) ≤ (k : ℚ) - 1 / 2 ^ 31 := by
    rcases lt_or_le (d / Hour) (k - 1) with hlt | hge
    · have : ((d / Hour : ℤ) : ℚ) ≤ (k : ℚ) - 2 := by
        have : d / Hour ≤ k - 2 := by omega
        exact_mod_cast this
      have : (1 : ℚ) / 2 ^ 31 ≤ 1 := by norm_num
      linarith
    · have hdk : d / Hour = k - 1 := by unfold Hour at *; omega
      have hm0 : 0 ≤ d % Hour := by unfold Hour; omega
      have hm : d % Hour ≤ 3600000000000 - 2000 := by unfold Hour at *; omega
      have he : float64OfInt (d % Hour) = ((d % Hour : ℤ) : ℚ) :=
        float64OfInt_exact _ (by rw [abs_of_nonneg hm0]; omega)
      have hq : ((d % Hour : ℤ) : ℚ) ≤ 3600000000000 - 2000 := by exact_mod_cast hm
      have hfr : IsFloat64 ((1 : ℚ) - 1 / 2 ^ 31) :=
        ⟨2 ^ 31 - 1, -31, by norm_num, by rw [zpow_neg]; norm_num⟩
      have hle : ((d % Hour : ℤ) : ℚ) / 3600000000000 ≤ (1 : ℚ) - 1 / 2 ^ 31 := by
        rw [div_le_iff₀ (by norm_num)]
        have : ((1 : ℚ) - 1 / 2 ^ 31) * 3600000000000 ≥ 3600000000000 - 2000 := by norm_num
        linarith
      have hr := roundFloat64_mono hle
      rw [roundFloat64_exact hfr] at hr
      rw [hdk, he]; push_cast; linarith
  have := roundFloat64_mono hsum
  rwa [roundFloat64_exact hfl] at this

theorem hours_neg (d : ℤ) : Duration.Hours (-d) = -Duration.Hours d := by
  unfold Duration.Hours float64OfInt
  rw [Int.neg_tdiv, tmod_neg_left]
  push_cast
  rw [roundFloat64_neg, roundFloat64_neg, neg_div, roundFloat64_neg, ← neg_add, roundFloat64_neg]

theorem intOfFloat64_neg (x : ℚ) : intOfFloat64 (-x) = -intOfFloat64 x := by
  unfold intOfFloat64
  rcases lt_trichotomy x 0 with h | h | h
  · rw [if_pos (by linarith), if_neg (by linarith), Int.floor_neg]
  · subst h; simp
  · rw [if_neg (by linarith), if_pos (by linarith), Int.ceil_neg]

theorem durationDays_neg (d : ℤ) : durationDays (-d) = -durationDays d := by
  unfold durationDays
  rw [hours_neg, neg_div, roundFloat64_neg, intOfFloat64_neg]

theorem durationDays_lower (d n : ℤ) (hd : 0 ≤ d) (hd2 : d ≤ 2 ^ 63) (hn0 : 0 ≤ n)
    (hn : n * Day ≤ d) : n ≤ durationDays d := by
  have hh := hours_lower d (24 * n) hd hd2 (by omega) (by unfold Day at hn; linarith)
  have hn53 : |n| < 2 ^ 53 := by rw [abs_of_nonneg hn0]; unfold Day Hour at *; omega
  have hq : (n : ℚ) ≤ Duration.Hours d / 24 := by
    rw [le_div_iff₀ (by norm_num)]; push_cast at hh; linarith
  have hr := roundFloat64_mono hq
  rw [roundFloat64_intCast n hn53] at hr
  unfold durationDays intOfFloat64
  have h0 : (0 : ℚ) ≤ (n : ℚ) := by exact_mod_cast hn0
  rw [if_pos (by linarith)]
  exact Int.le_floor.mpr hr

theorem durationDays_nonneg (d : ℤ) (hd : 0 ≤ d) (hd2 : d ≤ 2 ^ 63) : 0 ≤ durationDays d :=
  durationDays_lower d 0 hd hd2 le_rfl (by simpa using hd)

theorem roundHours_nonneg (d : ℤ) (hd : 0 ≤ d) (hd2 : d ≤ 2 ^ 63) :
    0 ≤ roundFloat64 (Duration.Hours d / 24) := by
  have hh := hours_lower d 0 hd hd2 le_rfl (by simpa using hd)
  have := roundFloat64_mono (show (0 : ℚ) ≤ Duration.Hours d / 24 by
    push_cast at hh; positivity)
  rwa [roundFloat64_zero] at this

theorem durationDays_upper (d n : ℤ) (hd : 0 ≤ d) (hd2 : d ≤ 2 ^ 63) (hn : d ≤ n * Day)
    (hn40 : n < 2 ^ 40) : durationDays d ≤ n := by
  have hn0 : 0 ≤ n := by unfold Day Hour at *; omega
  have hh := hours_upper d (24 * n) hd hd2 (by unfold Day at hn; linarith) (by omega)
  have hq : Duration.Hours d / 24 ≤ (n : ℚ) := by
    rw [div_le_iff₀ (by norm_num)]; push_cast at hh; linarith
  have hr := roundFloat64_mono hq
  rw [roundFloat64_intCast n (by rw [abs_of_nonneg hn0]; omega)] at hr
  unfold durationDays intOfFloat64
  rw [if_pos (roundHours_nonneg d hd hd2)]
  have := Int.floor_le (roundFloat64 (Duration.Hours d / 24))
  have h2 : ((⌊roundFloat64 (Duration.Hours d / 24)⌋ : ℤ) : ℚ) ≤ (n : ℚ) := by linarith
  exact_mod_cast h2

theorem durationDays_upper_fine (d n : ℤ) (hd : 0 ≤ d) (hd2 : d ≤ 2 ^ 63)
    (hn : d ≤ (n + 1) * Day - 2000) (hn17 : n + 1 ≤ 2 ^ 17) : durationDays d ≤ n := by
  have hh := hours_upper_fine d (24 * (n + 1)) hd hd2 (by unfold Day at hn; linarith) (by omega)
  have hn1 : 1 ≤ n + 1 := by unfold Day Hour at *; omega
  have hfl : IsFloat64 (((n + 1 : ℤ) : ℚ) - 1 / 2 ^ 36) :=
    ⟨(n + 1) * 2 ^ 36 - 1, -36, by rw [abs_of_nonneg (by omega)]; omega, by
      rw [zpow_neg]; push_cast; norm_num; ring⟩
  have hq : Duration.Hours d / 24 ≤ ((n + 1 : ℤ) : ℚ) - 1 / 2 ^ 36 := by
    rw [div_le_iff₀ (by norm_num)]; push_cast at hh ⊢
    have : (1 : ℚ) / 2 ^ 36 * 24 ≤ 1 / 2 ^ 31 := by norm_num
    linarith
  have hr := roundFloat64_mono hq
  rw [roundFloat64_exact hfl] at hr
  unfold durationDays intOfFloat64
  rw [if_pos (roundHours_nonneg d hd hd2)]
  have hlt : roundFloat64 (Duration.Hours d / 24) < ((n + 1 : ℤ) : ℚ) := by
    have : (0 : ℚ) < 1 / 2 ^ 36 := by norm_num
    linarith
  have := Int.floor_lt.mpr hlt
  omega

/-- Away from the last two microseconds before a whole-day boundary, the float computation
int(d.Hours() / 24) is the integer quotient of the duration by one day, truncated toward zero. -/
theorem durationDays_eq_tdiv (d : ℤ) (h1 : -2 ^ 63 ≤ d) (h2 : d ≤ 2 ^ 63)
    (hmod : |d| % Day ≤ Day - 2000) : durationDays d = Int.tdiv d Day := by
  have key : ∀ a : ℤ, 0 ≤ a → a ≤ 2 ^ 63 → a % Day ≤ Day - 2000 → durationDays a = a / Day := by
    intro a ha ha2 hm
    apply le_antisymm
    · exact durationDays_upper_fine a (a / Day) ha ha2 (by unfold Day Hour at *; omega)
        (by unfold Day Hour at *; omega)
    · exact durationDays_lower a (a / Day) ha ha2 (by unfold Day Hour; omega)
        (by unfold Day Hour; omega)
  rcases le_or_lt 0 d with hd | hd
  · rw [abs_of_nonneg hd] at hmod
    rw [key d hd h2 hmod, Int.tdiv_eq_ediv hd (by unfold Day Hour; norm_num)]
  · rw [abs_of_neg hd] at hmod
    have hk := key (-d) (by omega) (by omega) hmod
    rw [durationDays_neg] at hk
    have e : Int.tdiv d Day = -((-d) / Day) := by
      rw [← Int.tdiv_eq_ediv (by omega) (by unfold Day Hour; norm_num), Int.neg_tdiv]; ring
    rw [e]; omega


/-- The hedge of `durationDays_eq_tdiv` is needed: one nanosecond before 200 whole days
the float sum in Hours rounds up to 4800, so the day count is 200 although the integer
quotient is 199. -/
theorem durationDays_rounds_up_before_boundary :
    durationDays (200 * Day - 1) = 200 ∧ Int.tdiv (200 * Day - 1) Day = 199 := by
  refine ⟨?_, by unfold Day Hour; rfl⟩
  have hd0 : (0 : ℤ) ≤ 200 * Day - 1 := by unfold Day Hour; norm_num
  have hd2 : (200 : ℤ) * Day - 1 ≤ 2 ^ 63 := by unfold Day Hour; norm_num
  apply le_antisymm
  · exact durationDays_upper _ 200 hd0 hd2 (by omega) (by norm_num)
  -- the fractional hour is at least 1 - 3 / 2^43
  have hq : (200 * Day - 1) / Hour = 4799 := by unfold Day Hour; rfl
  have hm : (200 * Day - 1) % Hour = 3599999999999 := by unfold Day Hour; rfl
  have hfl : IsFloat64 ((1 : ℚ) - 3 / 2 ^ 43) :=
    ⟨2 ^ 43 - 3, -43, by norm_num, by rw [zpow_neg]; norm_num⟩
  have hf : (1 : ℚ) - 3 / 2 ^ 43 ≤
      roundFloat64 (float64OfInt ((200 * Day - 1) % Hour) / 3600000000000) := by
    rw [hm, float64OfInt_exact _ (by norm_num)]
    have := roundFloat64_mono (show (1 : ℚ) - 3 / 2 ^ 43
      ≤ ((3599999999999 : ℤ) : ℚ) / 3600000000000 by norm_num)
    rwa [roundFloat64_exact hfl] at this
  -- rounding 4800 - 3 / 2^43 gives 4800
  have hlog : Int.log 2 (4800 : ℚ) = 12 := by
    apply le_antisymm
    · have : Int.log 2 (4800 : ℚ) < 13 :=
        (Int.lt_zpow_iff_log_lt (by norm_num) (by norm_num)).mp (by norm_num)
      omega
    · exact (Int.zpow_le_iff_le_log (by norm_num) (by norm_num)).mp (by norm_num)
  have hulp : ulp 4800 = 1 / 2 ^ 40 := by
    unfold ulp; rw [hlog]; norm_num [zpow_neg]
  have hr : roundFloat64 ((4800 : ℚ) - 3 / 2 ^ 43) = 4800 := by
    have h4800 : roundFloat64 (4800 : ℚ) = 4800 := by
      have := roundFloat64_intCast 4800 (by norm_num)
      simpa using this
    have hle : roundFloat64 ((4800 : ℚ) - 3 / 2 ^ 43) ≤ 4800 := by
      have := roundFloat64_mono (show (4800 : ℚ) - 3 / 2 ^ 43 ≤ 4800 by norm_num)
      rwa [h4800] at this
    have hnear := roundFloat64_nearest ((4800 : ℚ) - 3 / 2 ^ 43)
      (isFloat64_intCast 4800 (by norm_num))
    have hge : (4800 : ℚ) - 6 / 2 ^ 43 ≤ roundFloat64 ((4800 : ℚ) - 3 / 2 ^ 43) := by
      have h1 : |(4800 : ℚ) - 3 / 2 ^ 43 - ((4800 : ℤ) : ℚ)| = 3 / 2 ^ 43 := by
        rw [abs_of_neg (by norm_num)]; norm_num
      rw [h1] at hnear
      have := (abs_le.mp hnear).2
      linarith
    rcases scaled_float 4800 (roundFloat64_isFloat64 ((4800 : ℚ) - 3 / 2 ^ 43)) with
      ⟨z, hz⟩ | hsmall
    · rw [hulp] at hz
      have hzr : roundFloat64 ((4800 : ℚ) - 3 / 2 ^ 43) = (z : ℚ) / 2 ^ 40 := by
        rw [← hz]; field_simp
      rw [hzr] at hle hge ⊢
      have h1 : (z : ℚ) ≤ 4800 * 2 ^ 40 := by
        rw [div_le_iff₀ (by positivity)] at hle; exact hle
      have h2 : (4800 : ℚ) * 2 ^ 40 - 1 < z := by
        rw [le_div_iff₀ (by positivity)] at hge
        have : ((4800 : ℚ) - 6 / 2 ^ 43) * 2 ^ 40 = 4800 * 2 ^ 40 - 3 / 4 := by norm_num
        linarith
      have h1z : z ≤ 4800 * 2 ^ 40 := by exact_mod_cast h1
      have h2z : 4800 * 2 ^ 40 - 1 < z := by exact_mod_cast h2
      have : z = 4800 * 2 ^ 40 := by omega
      rw [this]; norm_num
    · rw [hulp] at hsmall
      have := (abs_lt.mp hsmall).2
      rw [div_lt_iff₀ (by positivity)] at this
      norm_num at this
      linarith
  have hh : (4800 : ℚ) ≤ Duration.Hours (200 * Day - 1) := by
    rw [hours_unfold_nonneg _ hd0 hd2, hq]
    have := roundFloat64_mono (show (4800 : ℚ) - 3 / 2 ^ 43 ≤ ((4799 : ℤ) : ℚ)
      + roundFloat64 (float64OfInt ((200 * Day - 1) % Hour) / 3600000000000) by
        push_cast; linarith)
    rwa [hr] at this
  have hdays := roundFloat64_mono (show ((200 : ℤ) : ℚ) ≤ Duration.Hours (200 * Day - 1) / 24 by
    rw [le_div_iff₀ (by norm_num)]; push_cast; linarith)
  rw [roundFloat64_intCast 200 (by norm_num)] at hdays
  unfold durationDays intOfFloat64
  rw [if_pos (by push_cast at hdays; linarith)]
  exact Int.le_floor.mpr hdays

/-! ## The domain list -/

/-- C8: getDomains returns the primary domain first, followed by every alternate name of
SAN in its original order with duplicates kept: the result is Domain :: SAN, so its length
is 1 + len(SAN), element 0 is Domain, element i+1 is SAN[i] (both absent past the end),
and with an empty SAN the result is exactly [Domain]. -/
theorem getDomains_primary_then_san (cfg : Config) :
    getDomains cfg = cfg.Domain :: cfg.SAN ∧
    (getDomains cfg).length = 1 + cfg.SAN.length ∧
    (getDomains cfg)[0]? = some cfg.Domain ∧
    (∀ i : ℕ, (getDomains cfg)[i + 1]? = cfg.SAN[i]?) ∧
    getDomains ⟨cfg.Email, cfg.Domain, [], cfg.CertPath, cfg.KeyPath, cfg.CADirURL,
      cfg.ExpiryDaysThreshold⟩ = [cfg.Domain] := by
  refine ⟨rfl, ?_, ?_, ?_, rfl⟩
  · simp [getDomains]; omega
  · simp [getDomains]
  · intro i; simp [getDomains]

/-! ## The challenge responder -/

/-- C7: challenge artifact round trip. Whenever Present(domain, token, proof) succeeds,
reading the file at Join(challengeBasePath, token) gives exactly proof, whatever was there
before; and after any subsequent successful CleanUp(domain, token, proof) nothing is found
at that path any more (Stat reports ENOENT). -/
theorem Present_CleanUp_round_trip (fs fs1 : FS) (domain token keyAuth : String)
    (hP : customHTTP01Provider.Present fs domain token keyAuth = (fs1, none)) :
    os.ReadFile fs1 (filepath.Join [challengeBasePath, token]) = .ok keyAuth ∧
    ∀ fs2 : FS, customHTTP01Provider.CleanUp fs1 domain token keyAuth = (fs2, none) →
      os.Stat fs2 (filepath.Join [challengeBasePath, token]) = .error .ENOENT := by
  constructor
  · unfold customHTTP01Provider.Present at hP
    rcases hm : os.MkdirAll fs challengeBasePath with ⟨fsm, em⟩
    rw [hm] at hP
    cases em with
    | some err => simp at hP
    | none => exact os.ReadFile_of_WriteFile fsm fs1 _ _ hP
  · intro fs2 hC
    exact os.Stat_of_Remove fs1 fs2 _ hC

/-- Witness for C7: the token file holds an older proof; Present replaces it, CleanUp
removes it. -/
theorem Present_CleanUp_round_trip_witness :
    customHTTP01Provider.Present fsStaleToken "example.com" "tok" "proof"
      = ((customHTTP01Provider.Present fsStaleToken "example.com" "tok" "proof").1, none) ∧
    os.ReadFile fsStaleToken (filepath.Join [challengeBasePath, "tok"]) = .ok "an older proof" ∧
    os.ReadFile (customHTTP01Provider.Present fsStaleToken "example.com" "tok" "proof").1
      (filepath.Join [challengeBasePath, "tok"]) = .ok "proof" ∧
    os.Stat (customHTTP01Provider.CleanUp
      (customHTTP01Provider.Present fsStaleToken "example.com" "tok" "proof").1
      "example.com" "tok" "proof").1 (filepath.Join [challengeBasePath, "tok"])
      = .error .ENOENT :=
  ⟨rfl, rfl,
   (Present_CleanUp_round_trip fsStaleToken _ "example.com" "tok" "proof" rfl).1,
   (Present_CleanUp_round_trip fsStaleToken _ "example.com" "tok" "proof" rfl).2 _ rfl⟩

/-- Counterexample to C2: on the empty filesystem no file named tok exists under the
challenge base path, and CleanUp returns a non-nil error; and after Present, the first
CleanUp returns nil and the second one returns a non-nil error. -/
theorem CleanUp_absent_counterexample :
    os.Stat fsEmpty (filepath.Join [challengeBasePath, "tok"]) = .error .ENOENT ∧
    (customHTTP01Provider.CleanUp fsEmpty "example.com" "tok" "proof").2
      = some (.pathError "remove" "/usr/share/nginx/challenge/.well-known/acme-challenge/tok"
          .ENOENT) ∧
    (customHTTP01Provider.Present fsEmpty "example.com" "tok" "proof").2 = none ∧
    (customHTTP01Provider.CleanUp
      (customHTTP01Provider.Present fsEmpty "example.com" "tok" "proof").1
      "example.com" "tok" "proof").2 = none ∧
    (customHTTP01Provider.CleanUp
      (customHTTP01Provider.CleanUp
        (customHTTP01Provider.Present fsEmpty "example.com" "tok" "proof").1
        "example.com" "tok" "proof").1
      "example.com" "tok" "proof").2
      = some (.pathError "remove" "/usr/share/nginx/challenge/.well-known/acme-challenge/tok"
          .ENOENT) :=
  ⟨rfl, rfl, rfl, rfl, rfl⟩

/-- C2, amended: CleanUp is not idempotent. Whenever nothing is found at
Join(challengeBasePath, token) (Stat fails with an error e), CleanUp returns the non-nil
path error of os.Remove carrying e and leaves the filesystem unchanged; in particular,
after a successful Present and a first successful CleanUp, a second CleanUp returns the
ENOENT path error, for which os.IsNotExist holds. -/
theorem CleanUp_absent_is_error (domain token keyAuth : String) :
    (∀ (fs : FS) (e : Errno),
      os.Stat fs (filepath.Join [challengeBasePath, token]) = .error e →
      customHTTP01Provider.CleanUp fs domain token keyAuth
        = (fs, some (.pathError "remove" (filepath.Join [challengeBasePath, token]) e))) ∧
    (∀ fs fs1 fs2 : FS,
      customHTTP01Provider.Present fs domain token keyAuth = (fs1, none) →
      customHTTP01Provider.CleanUp fs1 domain token keyAuth = (fs2, none) →
      customHTTP01Provider.CleanUp fs2 domain token keyAuth
        = (fs2, some (.pathError "remove" (filepath.Join [challengeBasePath, token]) .ENOENT)) ∧
      os.IsNotExist (.pathError "remove" (filepath.Join [challengeBasePath, token]) .ENOENT)
        = true) := by
  constructor
  · intro fs e h
    exact os.Remove_of_Stat_error fs _ e h
  · intro fs fs1 fs2 _ hC
    exact ⟨os.Remove_of_Stat_error fs2 _ .ENOENT (os.Stat_of_Remove fs1 fs2 _ hC), rfl⟩

/-- Witness for the amended C2: on the empty filesystem, and for the second CleanUp after
a Present. -/
theorem CleanUp_absent_is_error_witness :
    customHTTP01Provider.CleanUp fsEmpty "example.com" "tok" "proof"
      = (fsEmpty, some (.pathError "remove" (filepath.Join [challengeBasePath, "tok"]) .ENOENT)) ∧
    customHTTP01Provider.CleanUp
        (customHTTP01Provider.CleanUp
          (customHTTP01Provider.Present fsStaleToken "example.com" "tok" "proof").1
          "example.com" "tok" "proof").1 "example.com" "tok" "proof"
      = ((customHTTP01Provider.CleanUp
          (customHTTP01Provider.Present fsStaleToken "example.com" "tok" "proof").1
          "example.com" "tok" "proof").1,
         some (.pathError "remove" (filepath.Join [challengeBasePath, "tok"]) .ENOENT)) ∧
    os.IsNotExist (.pathError "remove" (filepath.Join [challengeBasePath, "tok"]) .ENOENT)
      = true :=
  ⟨(CleanUp_absent_is_error "example.com" "tok" "proof").1 fsEmpty .ENOENT rfl,
   (CleanUp_absent_is_error "example.com" "tok" "proof").2 fsStaleToken
     (customHTTP01Provider.Present fsStaleToken "example.com" "tok" "proof").1
     (customHTTP01Provider.CleanUp
       (customHTTP01Provider.Present fsStaleToken "example.com" "tok" "proof").1
       "example.com" "tok" "proof").1
     rfl rfl⟩

/-! ## The renewal decision -/

theorem os.ReadFile_of_Stat_ENOENT (fs : FS) (name : String)
    (h : os.Stat fs name = .error .ENOENT) :
    os.ReadFile fs name = .error (.pathError "open" name .ENOENT) := by
  unfold os.Stat at h
  unfold os.ReadFile
  cases hr : fs.resolve name with
  | error e => rw [hr] at h; simp at h; subst h; rfl
  | ok p =>
    rw [hr] at h
    simp only at h
    cases hl : fs.lookup p with
    | none => simp [hl]
    | some n => rw [hl] at h; simp at h

theorem firstRejected_eq_none (cert : Certificate) (domains : List String)
    (h : ∀ d ∈ domains, cert.VerifyHostname d = none) : firstRejected cert domains = none := by
  induction domains with
  | nil => rfl
  | cons d ds ih =>
    unfold firstRejected
    rw [h d (List.mem_cons_self d ds)]
    exact ih (fun x hx => h x (List.mem_cons_of_mem d hx))

theorem firstRejected_isSome (cert : Certificate) (domains : List String)
    (h : ∃ d ∈ domains, cert.VerifyHostname d ≠ none) :
    ∃ d err, firstRejected cert domains = some (d, err) := by
  induction domains with
  | nil => obtain ⟨d, hd, _⟩ := h; cases hd
  | cons d ds ih =>
    unfold firstRejected
    cases hv : cert.VerifyHostname d with
    | some err => exact ⟨d, err, rfl⟩
    | none =>
      obtain ⟨x, hx, hne⟩ := h
      rcases List.mem_cons.mp hx with rfl | hx2
      · exact absurd hv hne
      · exact ih ⟨x, hx2, hne⟩

/-- The result of the check for a certificate that parses and covers every domain. -/
theorem check_of_covering_cert (w : Collaborators) (fs : FS) (certPath pem der : String)
    (cert : Certificate) (domains : List String) (threshold : ℤ)
    (hread : os.ReadFile fs certPath = .ok pem) (hpem : w.pemDecode pem = some der)
    (hparse : w.parseCertificate der = .ok cert)
    (hcover : ∀ d ∈ domains, cert.VerifyHostname d = none) :
    checkCertificateExpiration w fs certPath domains threshold =
      ⟨decide (durationDays (time.Until w.now cert.NotAfter) ≤ threshold), none,
        ["Certificate expires in "
          ++ toString (durationDays (time.Until w.now cert.NotAfter)) ++ " days"]⟩ := by
  unfold checkCertificateExpiration
  rw [hread]; simp only
  rw [hpem]; simp only
  rw [hparse]; simp only
  rw [firstRejected_eq_none cert domains hcover]

theorem Time.Sub_bounds (t u : ℤ) :
    -2 ^ 63 ≤ Time.Sub t u ∧ Time.Sub t u ≤ 2 ^ 63 - 1 := by
  unfold Time.Sub minDuration maxDuration
  split_ifs <;> constructor <;> omega

theorem Time.Sub_of_fits (t u : ℤ) (h1 : -2 ^ 63 ≤ t - u) (h2 : t - u ≤ 2 ^ 63 - 1) :
    Time.Sub t u = t - u := by
  unfold Time.Sub minDuration maxDuration
  rw [if_neg (by omega), if_neg (by omega)]

theorem durationDays_whole (n : ℤ) (h1 : -106751 ≤ n) (h2 : n ≤ 106751) :
    durationDays (n * Day) = n := by
  have hm : |n * Day| % Day = 0 := by
    rw [abs_mul, abs_of_pos (show (0 : ℤ) < Day by unfold Day Hour; norm_num)]
    exact Int.mul_emod_left _ _
  rw [durationDays_eq_tdiv (n * Day) (by unfold Day Hour; omega) (by unfold Day Hour; omega)
    (by rw [hm]; unfold Day Hour; norm_num)]
  exact Int.mul_tdiv_cancel _ (by unfold Day Hour; norm_num)

theorem durationDays_maxDuration : durationDays maxDuration = 106751 := by
  rw [durationDays_eq_tdiv maxDuration (by unfold maxDuration; norm_num)
    (by unfold maxDuration; norm_num)
    (by unfold maxDuration Day Hour; rw [abs_of_pos (by norm_num)]; norm_num)]
  unfold maxDuration Day Hour; rfl

theorem durationDays_minDuration : durationDays minDuration = -106751 := by
  rw [durationDays_eq_tdiv minDuration (by unfold minDuration; norm_num)
    (by unfold minDuration; norm_num)
    (by unfold minDuration Day Hour; rw [abs_of_neg (by norm_num)]; norm_num)]
  unfold minDuration Day Hour; rfl

/-- Counterexample to C3: under a regular file `/etc/ssl/private` nothing exists at the
default certificate path, yet the check returns needsRenewal = false and a non-nil
(not-a-directory) error. -/
theorem check_missing_under_file_counterexample :
    (∀ n : Node, os.Stat fsPrivateIsFile defaultCertPath ≠ .ok n) ∧
    checkCertificateExpiration (worldWith exampleNow (certFor exampleNow exampleNames))
      fsPrivateIsFile defaultCertPath exampleNames 30
      = ⟨false, some (.pathError "open" "/etc/ssl/private/fullchain.pem" .ENOTDIR), []⟩ := by
  constructor
  · intro n h
    have : os.Stat fsPrivateIsFile defaultCertPath = .error .ENOTDIR := rfl
    rw [this] at h; cases h
  · rfl

/-- C3, amended: for every certificate path that the filesystem reports as not existing
(Stat fails with ENOENT: the entry is missing and every directory on the way to it is a
directory, or a directory on the way is missing, or the path is empty), every
required-domain list and every threshold, checkCertificateExpiration returns
needsRenewal = true and a nil error. -/
theorem check_absent_needs_renewal (w : Collaborators) (fs : FS) (certPath : String)
    (domains : List String) (threshold : ℤ)
    (habsent : os.Stat fs certPath = .error .ENOENT) :
    (checkCertificateExpiration w fs certPath domains threshold).needsRenewal = true ∧
    (checkCertificateExpiration w fs certPath domains threshold).err = none := by
  unfold checkCertificateExpiration
  rw [os.ReadFile_of_Stat_ENOENT fs certPath habsent]
  exact ⟨rfl, rfl⟩

/-- Witness for the amended C3: the first run, on an empty filesystem. -/
theorem check_absent_needs_renewal_witness :
    os.Stat fsEmpty defaultCertPath = .error .ENOENT ∧
    (checkCertificateExpiration (worldWith exampleNow (certFor exampleNow exampleNames))
      fsEmpty defaultCertPath exampleNames 30).needsRenewal = true ∧
    (checkCertificateExpiration (worldWith exampleNow (certFor exampleNow exampleNames))
      fsEmpty defaultCertPath exampleNames 30).err = none :=
  ⟨rfl, check_absent_needs_renewal _ fsEmpty defaultCertPath exampleNames 30 rfl⟩

/-- C4: for every certificate file that reads, decodes and parses, and every
required-domain list containing at least one name that VerifyHostname of the certificate
rejects, checkCertificateExpiration returns needsRenewal = true with a nil error, whatever
the clock, the expiry instant and the threshold. -/
theorem check_domain_mismatch_needs_renewal (w : Collaborators) (fs : FS)
    (certPath pem der : String) (cert : Certificate) (domains : List String) (threshold : ℤ)
    (hread : os.ReadFile fs certPath = .ok pem) (hpem : w.pemDecode pem = some der)
    (hparse : w.parseCertificate der = .ok cert)
    (hrej : ∃ d ∈ domains, cert.VerifyHostname d ≠ none) :
    (checkCertificateExpiration w fs certPath domains threshold).needsRenewal = true ∧
    (checkCertificateExpiration w fs certPath domains threshold).err = none := by
  obtain ⟨d, err, hfr⟩ := firstRejected_isSome cert domains hrej
  unfold checkCertificateExpiration
  rw [hread]; simp only
  rw [hpem]; simp only
  rw [hparse]; simp only
  rw [hfr]
  exact ⟨rfl, rfl⟩

/-- Witness for C4: the certificate covers only example.com and is good for ten more
years; the required list is [example.com, www.example.com]; the threshold is 30. -/
theorem check_domain_mismatch_needs_renewal_witness :
    (checkCertificateExpiration
      (worldWith exampleNow (certFor (exampleNow + 3650 * Day) ["example.com"]))
      (fsWithCert "PEM") defaultCertPath ["example.com", "www.example.com"] 30).needsRenewal
        = true ∧
    (checkCertificateExpiration
      (worldWith exampleNow (certFor (exampleNow + 3650 * Day) ["example.com"]))
      (fsWithCert "PEM") defaultCertPath ["example.com", "www.example.com"] 30).err = none :=
  check_domain_mismatch_needs_renewal
    (worldWith exampleNow (certFor (exampleNow + 3650 * Day) ["example.com"]))
    (fsWithCert "PEM") defaultCertPath "PEM" "DER"
    (certFor (exampleNow + 3650 * Day) ["example.com"]) ["example.com", "www.example.com"] 30
    rfl rfl rfl ⟨"www.example.com", by simp, by simp [certFor]⟩

theorem hours_whole (k : ℤ) (h0 : 0 ≤ k) (h1 : k ≤ 2562047) :
    Duration.Hours (k * Hour) = k :=
  le_antisymm
    (hours_upper (k * Hour) k (by unfold Hour; omega) (by unfold Hour; omega) le_rfl (by omega))
    (hours_lower (k * Hour) k (by unfold Hour; omega) (by unfold Hour; omega) h0 le_rfl)

/-- Counterexample to C5: the threshold is -106752 days and the certificate expired exactly
106752 days before the evaluation instant. time.Until saturates at the smallest Duration,
days-remaining is -106751, and the check returns needsRenewal = false. -/
theorem check_exact_threshold_counterexample :
    (certFor (exampleNow + (-106752) * Day) exampleNames).NotAfter
      = (worldWith exampleNow (certFor (exampleNow + (-106752) * Day) exampleNames)).now
        + (-106752) * Day ∧
    (∀ d ∈ exampleNames,
      (certFor (exampleNow + (-106752) * Day) exampleNames).VerifyHostname d = none) ∧
    time.Until exampleNow (exampleNow + (-106752) * Day) = minDuration ∧
    durationDays (time.Until exampleNow (exampleNow + (-106752) * Day)) = -106751 ∧
    (checkCertificateExpiration
      (worldWith exampleNow (certFor (exampleNow + (-106752) * Day) exampleNames))
      (fsWithCert "PEM") defaultCertPath exampleNames (-106752)).needsRenewal = false := by
  have hu : time.Until exampleNow (exampleNow + (-106752) * Day) = minDuration := by
    unfold time.Until Time.Sub minDuration Day Hour exampleNow
    norm_num
  have hc : ∀ d ∈ exampleNames,
      (certFor (exampleNow + (-106752) * Day) exampleNames).VerifyHostname d = none := by
    intro d hd; simp [certFor, hd]
  refine ⟨rfl, hc, hu, by rw [hu]; exact durationDays_minDuration, ?_⟩
  rw [check_of_covering_cert _ (fsWithCert "PEM") defaultCertPath "PEM" "DER"
    (certFor (exampleNow + (-106752) * Day) exampleNames) exampleNames (-106752) rfl rfl rfl hc]
  show decide (durationDays (time.Until exampleNow (exampleNow + (-106752) * Day)) ≤ -106752)
    = false
  rw [hu, durationDays_minDuration]
  decide

/-- C5, amended: the expiry boundary is inclusive for every threshold of at least -106751
days. For every certificate that reads, decodes and parses, covers every required domain
and expires exactly expiryDaysThreshold days (threshold * 24 hours) after the evaluation
instant, checkCertificateExpiration returns needsRenewal = true with a nil error, provided
-106751 <= expiryDaysThreshold (below that, no Duration is that long). -/
theorem check_exact_threshold_needs_renewal (w : Collaborators) (fs : FS)
    (certPath pem der : String) (cert : Certificate) (domains : List String) (threshold : ℤ)
    (hread : os.ReadFile fs certPath = .ok pem) (hpem : w.pemDecode pem = some der)
    (hparse : w.parseCertificate der = .ok cert)
    (hcover : ∀ d ∈ domains, cert.VerifyHostname d = none)
    (hexp : cert.NotAfter = w.now + threshold * Day)
    (hrange : -106751 ≤ threshold) :
    (checkCertificateExpiration w fs certPath domains threshold).needsRenewal = true ∧
    (checkCertificateExpiration w fs certPath domains threshold).err = none := by
  rw [check_of_covering_cert w fs certPath pem der cert domains threshold hread hpem hparse
    hcover]
  refine ⟨?_, rfl⟩
  show decide (durationDays (time.Until w.now cert.NotAfter) ≤ threshold) = true
  rw [decide_eq_true_eq]
  have hdiff : cert.NotAfter - w.now = threshold * Day := by rw [hexp]; ring
  unfold time.Until
  rcases le_or_lt threshold 106751 with hle | hgt
  · rw [Time.Sub_of_fits _ _ (by rw [hdiff]; unfold Day Hour; omega)
      (by rw [hdiff]; unfold Day Hour; omega), hdiff, durationDays_whole threshold hrange hle]
  · have : Time.Sub cert.NotAfter w.now = maxDuration := by
      unfold Time.Sub
      rw [hdiff, if_neg (by unfold minDuration Day Hour; omega),
        if_pos (by unfold maxDuration Day Hour; omega)]
    rw [this, durationDays_maxDuration]
    omega

/-- Witness for the amended C5: threshold 30, expiry exactly 30 days away. -/
theorem check_exact_threshold_needs_renewal_witness :
    (checkCertificateExpiration
      (worldWith exampleNow (certFor (exampleNow + 30 * Day) exampleNames))
      (fsWithCert "PEM") defaultCertPath exampleNames 30).needsRenewal = true ∧
    (checkCertificateExpiration
      (worldWith exampleNow (certFor (exampleNow + 30 * Day) exampleNames))
      (fsWithCert "PEM") defaultCertPath exampleNames 30).err = none :=
  check_exact_threshold_needs_renewal
    (worldWith exampleNow (certFor (exampleNow + 30 * Day) exampleNames))
    (fsWithCert "PEM") defaultCertPath "PEM" "DER"
    (certFor (exampleNow + 30 * Day) exampleNames) exampleNames 30
    rfl rfl rfl (by intro d hd; simp [certFor, hd]) rfl (by decide)

/-- Counterexample to C6: the threshold is 30 days and the certificate expires 30 days and
one hour after the evaluation instant, which is more than 30 days; days-remaining is 30
and the check returns needsRenewal = true. -/
theorem check_beyond_threshold_counterexample :
    30 * Day < (certFor (exampleNow + (30 * Day + Hour)) exampleNames).NotAfter - exampleNow ∧
    durationDays (time.Until exampleNow (exampleNow + (30 * Day + Hour))) = 30 ∧
    checkCertificateExpiration
      (worldWith exampleNow (certFor (exampleNow + (30 * Day + Hour)) exampleNames))
      (fsWithCert "PEM") defaultCertPath exampleNames 30
      = ⟨true, none, ["Certificate expires in 30 days"]⟩ := by
  have hu : time.Until exampleNow (exampleNow + (30 * Day + Hour)) = 30 * Day + Hour := by
    unfold time.Until Time.Sub minDuration maxDuration Day Hour exampleNow
    norm_num
  have hd : durationDays (30 * Day + Hour) = 30 := by
    rw [durationDays_eq_tdiv (30 * Day + Hour) (by unfold Day Hour; norm_num)
      (by unfold Day Hour; norm_num)
      (by unfold Day Hour; rw [abs_of_pos (by norm_num)]; norm_num)]
    unfold Day Hour; rfl
  have hc : ∀ d ∈ exampleNames,
      (certFor (exampleNow + (30 * Day + Hour)) exampleNames).VerifyHostname d = none := by
    intro d hd; simp [certFor, hd]
  refine ⟨by simp [certFor, Day, Hour], by rw [hu]; exact hd, ?_⟩
  rw [check_of_covering_cert _ (fsWithCert "PEM") defaultCertPath "PEM" "DER"
    (certFor (exampleNow + (30 * Day + Hour)) exampleNames) exampleNames 30 rfl rfl rfl hc]
  show CheckResult.mk
    (decide (durationDays (time.Until exampleNow (exampleNow + (30 * Day + Hour))) ≤ 30)) none
    ["Certificate expires in "
      ++ toString (durationDays (time.Until exampleNow (exampleNow + (30 * Day + Hour))))
      ++ " days"] = _
  rw [hu, hd]
  rfl

/-- C6, amended: for every certificate that reads, decodes and parses, covers every
required domain and expires at least expiryDaysThreshold + 1 whole days ((threshold + 1) *
24 hours) after the evaluation instant, checkCertificateExpiration returns needsRenewal =
false (keep) with a nil error, provided expiryDaysThreshold <= 106750 (the longest Duration
is 106751 days and a fraction). -/
theorem check_beyond_threshold_keeps (w : Collaborators) (fs : FS)
    (certPath pem der : String) (cert : Certificate) (domains : List String) (threshold : ℤ)
    (hread : os.ReadFile fs certPath = .ok pem) (hpem : w.pemDecode pem = some der)
    (hparse : w.parseCertificate der = .ok cert)
    (hcover : ∀ d ∈ domains, cert.VerifyHostname d = none)
    (hexp : (threshold + 1) * Day ≤ cert.NotAfter - w.now)
    (hrange : threshold ≤ 106750) :
    (checkCertificateExpiration w fs certPath domains threshold).needsRenewal = false ∧
    (checkCertificateExpiration w fs certPath domains threshold).err = none := by
  rw [check_of_covering_cert w fs certPath pem der cert domains threshold hread hpem hparse
    hcover]
  refine ⟨?_, rfl⟩
  show decide (durationDays (time.Until w.now cert.NotAfter) ≤ threshold) = false
  rw [decide_eq_false_iff_not, not_le]
  obtain ⟨hb1, hb2⟩ := Time.Sub_bounds cert.NotAfter w.now
  have hsub : Time.Sub cert.NotAfter w.now = cert.NotAfter - w.now ∨
      (Time.Sub cert.NotAfter w.now = minDuration ∧ cert.NotAfter - w.now < minDuration) ∨
      (Time.Sub cert.NotAfter w.now = maxDuration ∧ maxDuration < cert.NotAfter - w.now) := by
    unfold Time.Sub
    split_ifs with h1 h2
    · exact Or.inr (Or.inl ⟨rfl, h1⟩)
    · exact Or.inr (Or.inr ⟨rfl, h2⟩)
    · exact Or.inl rfl
  unfold time.Until
  generalize Time.Sub cert.NotAfter w.now = d at hb1 hb2 hsub
  generalize cert.NotAfter - w.now = x at hexp hsub
  unfold minDuration maxDuration at hsub
  rcases le_or_lt 0 (threshold + 1) with hT | hT
  · have hd : (threshold + 1) * Day ≤ d := by
      unfold Day Hour at hexp ⊢
      rcases hsub with h | ⟨h, h2⟩ | ⟨h, h2⟩ <;> omega
    have := durationDays_lower d (threshold + 1) (by unfold Day Hour at hd; omega) (by omega)
      hT hd
    omega
  · rcases le_or_lt 0 d with hd0 | hd0
    · have := durationDays_nonneg d hd0 (by omega)
      omega
    · have hneg := durationDays_neg d
      have hup : durationDays (-d) ≤ -(threshold + 1) := by
        rcases le_or_lt (-(threshold + 1)) 106752 with hm | hm
        · apply durationDays_upper (-d) (-(threshold + 1)) (by omega) (by omega) ?_ (by omega)
          unfold Day Hour at hexp ⊢
          rcases hsub with h | ⟨h, h2⟩ | ⟨h, h2⟩ <;> omega
        · have := durationDays_upper (-d) 106752 (by omega) (by omega)
            (by unfold Day Hour; omega) (by norm_num)
          omega
      omega

/-- Witness for the amended C6: the test of acme_test.go, a certificate good for 40 more
days against a threshold of 30. -/
theorem check_beyond_threshold_keeps_witness :
    (checkCertificateExpiration
      (worldWith exampleNow (certFor (exampleNow + 40 * Day) exampleNames))
      (fsWithCert "PEM") defaultCertPath exampleNames 30).needsRenewal = false ∧
    (checkCertificateExpiration
      (worldWith exampleNow (certFor (exampleNow + 40 * Day) exampleNames))
      (fsWithCert "PEM") defaultCertPath exampleNames 30).err = none :=
  check_beyond_threshold_keeps
    (worldWith exampleNow (certFor (exampleNow + 40 * Day) exampleNames))
    (fsWithCert "PEM") defaultCertPath "PEM" "DER"
    (certFor (exampleNow + 40 * Day) exampleNames) exampleNames 30
    rfl rfl rfl (by intro d hd; simp [certFor, hd])
    (by simp [certFor, worldWith, Day, Hour]) (by decide)

theorem tdiv_eq_floor_or_succ (d : ℤ) :
    Int.tdiv d Day = if 0 ≤ d ∨ d % Day = 0 then d / Day else d / Day + 1 := by
  have hDay : (0 : ℤ) < Day := by unfold Day Hour; norm_num
  rcases le_or_lt 0 d with hd | hd
  · rw [if_pos (Or.inl hd), Int.tdiv_eq_ediv hd (le_of_lt hDay)]
  · have e : Int.tdiv d Day = -((-d) / Day) := by
      rw [← Int.tdiv_eq_ediv (by omega) (le_of_lt hDay), Int.neg_tdiv]; ring
    rw [e]
    unfold Day Hour at *
    split_ifs with h <;> omega

/-- Counterexample to C10: for a certificate that expired 12 hours before the evaluation
instant, hours-remaining is -12 and the floor of -12 / 24 is -1, but days-remaining is 0,
and the check logs 0 days. -/
theorem days_remaining_expired_counterexample :
    time.Until exampleNow (exampleNow - 12 * Hour) = -12 * Hour ∧
    Duration.Hours (time.Until exampleNow (exampleNow - 12 * Hour)) = -12 ∧
    ⌊Duration.Hours (time.Until exampleNow (exampleNow - 12 * Hour)) / 24⌋ = -1 ∧
    durationDays (time.Until exampleNow (exampleNow - 12 * Hour)) = 0 ∧
    checkCertificateExpiration
      (worldWith exampleNow (certFor (exampleNow - 12 * Hour) exampleNames))
      (fsWithCert "PEM") defaultCertPath exampleNames 30
      = ⟨true, none, ["Certificate expires in 0 days"]⟩ := by
  have hu : time.Until exampleNow (exampleNow - 12 * Hour) = -12 * Hour := by
    unfold time.Until Time.Sub minDuration maxDuration Hour exampleNow
    norm_num
  have hh : Duration.Hours (-12 * Hour) = -12 := by
    have := hours_whole 12 (by norm_num) (by norm_num)
    have e : (-12 : ℤ) * Hour = -(12 * Hour) := by ring
    rw [e, hours_neg, this]; norm_num
  have hd : durationDays (-12 * Hour) = 0 := by
    rw [durationDays_eq_tdiv (-12 * Hour) (by unfold Hour; norm_num)
      (by unfold Hour; norm_num)
      (by unfold Day Hour; rw [abs_of_neg (by norm_num)]; norm_num)]
    unfold Day Hour; rfl
  have hc : ∀ d ∈ exampleNames,
      (certFor (exampleNow - 12 * Hour) exampleNames).VerifyHostname d = none := by
    intro d hd; simp [certFor, hd]
  refine ⟨hu, by rw [hu]; exact hh, ?_, by rw [hu]; exact hd, ?_⟩
  · rw [hu, hh]
    rw [Int.floor_eq_iff]
    constructor <;> norm_num
  · rw [check_of_covering_cert _ (fsWithCert "PEM") defaultCertPath "PEM" "DER"
      (certFor (exampleNow - 12 * Hour) exampleNames) exampleNames 30 rfl rfl rfl hc]
    show CheckResult.mk
      (decide (durationDays (time.Until exampleNow (exampleNow - 12 * Hour)) ≤ 30)) none
      ["Certificate expires in "
        ++ toString (durationDays (time.Until exampleNow (exampleNow - 12 * Hour)))
        ++ " days"] = _
    rw [hu, hd]
    rfl

/-- Away from the float rounding edge, the day count of the time until expiry is the
integer quotient by one day, truncated toward zero. -/
theorem durationDays_until_eq_tdiv (now notAfter : ℤ)
    (hedge : |time.Until now notAfter| % Day ≤ Day - 2000) :
    durationDays (time.Until now notAfter) = Int.tdiv (time.Until now notAfter) Day := by
  obtain ⟨hb1, hb2⟩ := Time.Sub_bounds notAfter now
  exact durationDays_eq_tdiv (time.Until now notAfter) hb1 (by unfold time.Until; omega) hedge

/-- C10, amended: the days-remaining value that checkCertificateExpiration computes, logs
and compares with the threshold is the time until expiry divided by 24 hours with the
fraction discarded (rounded toward zero), by one computation for every expiry instant and
with no branch for expired certificates. For every certificate that reads, decodes, parses
and covers every required domain, whenever the length of the time until (or since) expiry,
as a Duration, is not within two microseconds short of a whole number of days, the check
returns needsRenewal = (q <= threshold) with a nil error and logs q days, where q is the
integer quotient of that Duration by one day truncated toward zero: the floor for a
certificate that has not expired or expired a whole number of days ago, and the floor plus
one for any other expired certificate (expired 12 hours ago gives 0, not -1). -/
theorem days_remaining_truncates (w : Collaborators) (fs : FS)
    (certPath pem der : String) (cert : Certificate) (domains : List String) (threshold : ℤ)
    (hread : os.ReadFile fs certPath = .ok pem) (hpem : w.pemDecode pem = some der)
    (hparse : w.parseCertificate der = .ok cert)
    (hcover : ∀ d ∈ domains, cert.VerifyHostname d = none)
    (hedge : |time.Until w.now cert.NotAfter| % Day ≤ Day - 2000) :
    checkCertificateExpiration w fs certPath domains threshold
      = ⟨decide (Int.tdiv (time.Until w.now cert.NotAfter) Day ≤ threshold), none,
          ["Certificate expires in "
            ++ toString (Int.tdiv (time.Until w.now cert.NotAfter) Day) ++ " days"]⟩ ∧
    durationDays (time.Until w.now cert.NotAfter)
      = Int.tdiv (time.Until w.now cert.NotAfter) Day ∧
    Int.tdiv (time.Until w.now cert.NotAfter) Day
      = (if 0 ≤ time.Until w.now cert.NotAfter ∨ time.Until w.now cert.NotAfter % Day = 0
          then time.Until w.now cert.NotAfter / Day
          else time.Until w.now cert.NotAfter / Day + 1) := by
  have h := durationDays_until_eq_tdiv w.now cert.NotAfter hedge
  refine ⟨?_, h, tdiv_eq_floor_or_succ _⟩
  rw [check_of_covering_cert w fs certPath pem der cert domains threshold hread hpem hparse
    hcover, h]

/-- Witness for the amended C10: for a certificate that expired 36 hours ago the check logs
-1 days, which is the floor (-2) plus one, and compares -1 with the threshold. -/
theorem days_remaining_truncates_witness :
    |time.Until exampleNow (exampleNow - 36 * Hour)| % Day ≤ Day - 2000 ∧
    time.Until exampleNow (exampleNow - 36 * Hour) / Day = -2 ∧
    Int.tdiv (time.Until exampleNow (exampleNow - 36 * Hour)) Day = -1 ∧
    checkCertificateExpiration
      (worldWith exampleNow (certFor (exampleNow - 36 * Hour) exampleNames))
      (fsWithCert "PEM") defaultCertPath exampleNames 30
      = ⟨true, none, ["Certificate expires in -1 days"]⟩ ∧
    (checkCertificateExpiration
      (worldWith exampleNow (certFor (exampleNow - 36 * Hour) exampleNames))
      (fsWithCert "PEM") defaultCertPath exampleNames (-2)).needsRenewal = false := by
  have hu : time.Until exampleNow (exampleNow - 36 * Hour) = -36 * Hour := by
    unfold time.Until Time.Sub minDuration maxDuration Hour exampleNow
    norm_num
  have hedge : |time.Until exampleNow (exampleNow - 36 * Hour)| % Day ≤ Day - 2000 := by
    rw [hu]; unfold Day Hour; rw [abs_of_neg (by norm_num)]; norm_num
  have hq : Int.tdiv (time.Until exampleNow (exampleNow - 36 * Hour)) Day = -1 := by
    rw [hu]; unfold Day Hour; rfl
  have hc : ∀ d ∈ exampleNames,
      (certFor (exampleNow - 36 * Hour) exampleNames).VerifyHostname d = none := by
    intro d hd; simp [certFor, hd]
  have h30 := (days_remaining_truncates
    (worldWith exampleNow (certFor (exampleNow - 36 * Hour) exampleNames))
    (fsWithCert "PEM") defaultCertPath "PEM" "DER"
    (certFor (exampleNow - 36 * Hour) exampleNames) exampleNames 30 rfl rfl rfl hc hedge).1
  have h2 := (days_remaining_truncates
    (worldWith exampleNow (certFor (exampleNow - 36 * Hour) exampleNames))
    (fsWithCert "PEM") defaultCertPath "PEM" "DER"
    (certFor (exampleNow - 36 * Hour) exampleNames) exampleNames (-2) rfl rfl rfl hc hedge).1
  refine ⟨hedge, by rw [hu]; unfold Day Hour; norm_num, hq, ?_, ?_⟩
  · rw [h30]
    show CheckResult.mk
      (decide (Int.tdiv (time.Until exampleNow (exampleNow - 36 * Hour)) Day ≤ 30)) none
      ["Certificate expires in "
        ++ toString (Int.tdiv (time.Until exampleNow (exampleNow - 36 * Hour)) Day)
        ++ " days"] = _
    rw [hq]
    rfl
  · rw [h2]
    show decide (Int.tdiv (time.Until exampleNow (exampleNow - 36 * Hour)) Day ≤ -2) = false
    rw [hq]
    decide

/-! ## The run -/

/-- The run when the check does not ask for renewal, whatever error it reports. -/
theorem run_of_not_needsRenewal (w : Collaborators) (cfg : Config) (fs : FS)
    (hdom : cfg.Domain ≠ "")
    (hkeep : (checkCertificateExpiration w fs cfg.CertPath (getDomains cfg)
      cfg.ExpiryDaysThreshold).needsRenewal = false) :
    run w cfg fs = ⟨none, fs,
      checkTrace (checkCertificateExpiration w fs cfg.CertPath (getDomains cfg)
        cfg.ExpiryDaysThreshold)
        ++ [Event.log "Certificate is still valid and not due for renewal"]⟩ := by
  unfold run
  rw [if_neg hdom]
  simp only [hkeep]
  rfl

theorem checkTrace_no_call (chk : CheckResult) : ∀ e ∈ checkTrace chk, e.isCall = false := by
  intro e he
  unfold checkTrace at he
  rcases List.mem_append.mp he with h | h
  · obtain ⟨m, _, rfl⟩ := List.mem_map.mp h; rfl
  · cases hc : chk.err with
    | none => rw [hc] at h; cases h
    | some err =>
      rw [hc] at h
      rcases List.mem_singleton.mp h with rfl
      rfl

/-- C9: when the decision is keep, run is a no-op. For every configuration with a
non-empty Domain for which checkCertificateExpiration returns (false, nil), run returns
nil, leaves the filesystem as it was, and enters none of setupACMEClient,
obtainCertificate, saveCertificateAndKey and reloadNginx: all it does after reading the
certificate is log. -/
theorem run_keep_is_noop (w : Collaborators) (cfg : Config) (fs : FS)
    (hdom : cfg.Domain ≠ "")
    (hkeep : (checkCertificateExpiration w fs cfg.CertPath (getDomains cfg)
      cfg.ExpiryDaysThreshold).needsRenewal = false)
    (hnil : (checkCertificateExpiration w fs cfg.CertPath (getDomains cfg)
      cfg.ExpiryDaysThreshold).err = none) :
    (run w cfg fs).err = none ∧ (run w cfg fs).fs = fs ∧
    (∀ e ∈ (run w cfg fs).trace, e.isCall = false) ∧
    (run w cfg fs).trace
      = (checkCertificateExpiration w fs cfg.CertPath (getDomains cfg)
          cfg.ExpiryDaysThreshold).logs.map Event.log
        ++ [Event.log "Certificate is still valid and not due for renewal"] := by
  rw [run_of_not_needsRenewal w cfg fs hdom hkeep]
  refine ⟨rfl, rfl, ?_, ?_⟩
  · intro e he
    rcases List.mem_append.mp he with h | h
    · exact checkTrace_no_call _ e h
    · rcases List.mem_singleton.mp h with rfl
      rfl
  · simp [checkTrace, hnil]

/-- Witness for C9: example.com with two alternate names, a certificate covering all three
and good for 40 more days, threshold 30. -/
theorem run_keep_is_noop_witness :
    (run (worldWith exampleNow (certFor (exampleNow + 40 * Day) exampleNames))
      (exampleConfig 30) (fsWithCert "PEM")).err = none ∧
    (run (worldWith exampleNow (certFor (exampleNow + 40 * Day) exampleNames))
      (exampleConfig 30) (fsWithCert "PEM")).fs = fsWithCert "PEM" ∧
    (∀ e ∈ (run (worldWith exampleNow (certFor (exampleNow + 40 * Day) exampleNames))
      (exampleConfig 30) (fsWithCert "PEM")).trace, e.isCall = false) ∧
    (run (worldWith exampleNow (certFor (exampleNow + 40 * Day) exampleNames))
      (exampleConfig 30) (fsWithCert "PEM")).trace
      = (checkCertificateExpiration
          (worldWith exampleNow (certFor (exampleNow + 40 * Day) exampleNames))
          (fsWithCert "PEM") (exampleConfig 30).CertPath (getDomains (exampleConfig 30))
          (exampleConfig 30).ExpiryDaysThreshold).logs.map Event.log
        ++ [Event.log "Certificate is still valid and not due for renewal"] :=
  have hc : ∀ d ∈ exampleNames,
      (certFor (exampleNow + 40 * Day) exampleNames).VerifyHostname d = none := by
    intro d hd; simp [certFor, hd]
  have hchk := check_of_covering_cert
    (worldWith exampleNow (certFor (exampleNow + 40 * Day) exampleNames))
    (fsWithCert "PEM") defaultCertPath "PEM" "DER"
    (certFor (exampleNow + 40 * Day) exampleNames) exampleNames 30 rfl rfl rfl hc
  have hd : durationDays (time.Until exampleNow (exampleNow + 40 * Day)) = 40 := by
    have hu : time.Until exampleNow (exampleNow + 40 * Day) = 40 * Day := by
      unfold time.Until Time.Sub minDuration maxDuration Day Hour exampleNow
      norm_num
    rw [hu]; exact durationDays_whole 40 (by norm_num) (by norm_num)
  run_keep_is_noop (worldWith exampleNow (certFor (exampleNow + 40 * Day) exampleNames))
    (exampleConfig 30) (fsWithCert "PEM") (by decide)
    (by
      show (checkCertificateExpiration _ (fsWithCert "PEM") defaultCertPath exampleNames
        30).needsRenewal = false
      rw [hchk]
      show decide (durationDays (time.Until exampleNow (exampleNow + 40 * Day)) ≤ 30) = false
      rw [hd]; decide)
    (by
      show (checkCertificateExpiration _ (fsWithCert "PEM") defaultCertPath exampleNames
        30).err = none
      rw [hchk])

/-- C1, as the code behaves: for every configuration with a non-empty Domain whose
certificate file reads but does not decode or does not parse, run logs the error of the
check and the line that the certificate is still valid, and returns nil without entering
setupACMEClient or obtainCertificate and without touching the filesystem: no renewal is
attempted. -/
theorem run_unparsable_cert_skips_renewal (w : Collaborators) (cfg : Config) (fs : FS)
    (pem : String) (hdom : cfg.Domain ≠ "")
    (hread : os.ReadFile fs cfg.CertPath = .ok pem)
    (hbad : w.pemDecode pem = none ∨
      ∃ der err, w.pemDecode pem = some der ∧ w.parseCertificate der = .error err) :
    (checkCertificateExpiration w fs cfg.CertPath (getDomains cfg)
      cfg.ExpiryDaysThreshold).needsRenewal = false ∧
    (checkCertificateExpiration w fs cfg.CertPath (getDomains cfg)
      cfg.ExpiryDaysThreshold).err ≠ none ∧
    (run w cfg fs).err = none ∧ (run w cfg fs).fs = fs ∧
    (∀ e ∈ (run w cfg fs).trace, e.isCall = false) ∧
    Event.log "Certificate is still valid and not due for renewal" ∈ (run w cfg fs).trace := by
  have hchk : (checkCertificateExpiration w fs cfg.CertPath (getDomains cfg)
      cfg.ExpiryDaysThreshold).needsRenewal = false ∧
      (checkCertificateExpiration w fs cfg.CertPath (getDomains cfg)
      cfg.ExpiryDaysThreshold).err ≠ none := by
    unfold checkCertificateExpiration
    rw [hread]; simp only
    rcases hbad with h | ⟨der, err, h1, h2⟩
    · rw [h]; exact ⟨rfl, by simp⟩
    · rw [h1]; simp only
      rw [h2]; exact ⟨rfl, by simp⟩
  refine ⟨hchk.1, hchk.2, ?_⟩
  rw [run_of_not_needsRenewal w cfg fs hdom hchk.1]
  refine ⟨rfl, rfl, ?_, by simp⟩
  intro e he
  rcases List.mem_append.mp he with h | h
  · exact checkTrace_no_call _ e h
  · rcases List.mem_singleton.mp h with rfl
    rfl

/-- Witness for C1: the certificate file holds bytes that are no PEM block. -/
theorem run_unparsable_cert_skips_renewal_witness :
    os.ReadFile (fsWithCert "not a certificate") (exampleConfig 30).CertPath
      = .ok "not a certificate" ∧
    (worldWith exampleNow (certFor exampleNow exampleNames)).pemDecode "not a certificate"
      = none ∧
    run (worldWith exampleNow (certFor exampleNow exampleNames)) (exampleConfig 30)
      (fsWithCert "not a certificate")
      = ⟨none, fsWithCert "not a certificate",
          [Event.log "Error checking certificate expiration: failed to parse certificate PEM data",
           Event.log "Certificate is still valid and not due for renewal"]⟩ ∧
    (∀ e ∈ (run (worldWith exampleNow (certFor exampleNow exampleNames)) (exampleConfig 30)
      (fsWithCert "not a certificate")).trace, e.isCall = false) :=
  ⟨rfl, rfl, rfl,
    (run_unparsable_cert_skips_renewal (worldWith exampleNow (certFor exampleNow exampleNames))
      (exampleConfig 30) (fsWithCert "not a certificate") "not a certificate" (by decide) rfl
      (Or.inl rfl)).2.2.2.2.1⟩

end Acme
